import Mathlib

/-!
Verification development for the Ori Mnemos retrieval and ranking engine.

The TypeScript core is shallowly embedded here.  Conventions of the embedding:

* JavaScript numbers are modelled by the rationals.  External numeric intrinsics
  that a JavaScript runtime provides (Math.sqrt, Math.exp, Math.log, Math.sin,
  Math.cos, Math.random, Date.now) and other external library calls
  (the huggingface embedding model, node crypto SHA-256, the yaml parser,
  graphology pagerank / louvain / betweenness) are parameters of the model,
  collected in the Env structure further below.  Every function that belongs to
  the repository itself is translated from its source.
* A JavaScript Map is modelled as an insertion-ordered association list
  (mapGet / mapSet below); a JavaScript Set as an insertion-ordered
  duplicate-free list (setAdd).
* Array.prototype.sort with a numeric comparator is a stable sort; it is
  modelled by List.insertionSort (stable) with the corresponding relation.
* Array.prototype.slice is modelled by jsSlice, including its treatment of
  negative indices.
* async file-system effects are modelled by explicit state in Env; the one
  fallible effect the claims are about (appending to the propensity log) is
  modelled as an Except-valued field of Env.
-/

/-! ## JavaScript container and array semantics -/

/-- Lookup in an insertion-ordered association list (JS Map.get). -/
def mapGet {κ : Type} {β : Type} [DecidableEq κ] : List (κ × β) → κ → Option β
  | [], _ => none
  | (k2, v) :: rest, k => if k2 = k then some v else mapGet rest k

/-- Update-in-place-or-append (JS Map.set). -/
def mapSet {κ : Type} {β : Type} [DecidableEq κ] : List (κ × β) → κ → β → List (κ × β)
  | [], k, v => [(k, v)]
  | (k2, v2) :: rest, k, v =>
      if k2 = k then (k2, v) :: rest else (k2, v2) :: mapSet rest k v

/-- JS Set.add: append if absent. -/
def setAdd {κ : Type} [DecidableEq κ] (s : List κ) (x : κ) : List κ :=
  if x ∈ s then s else s ++ [x]

/-- Resolve one JS Array.prototype.slice index against a length. -/
def jsSliceIdx (len : Nat) (i : Int) : Nat :=
  if i < 0 then (max ((len : Int) + i) 0).toNat else min i.toNat len

/-- JS Array.prototype.slice with begin and end arguments (negative allowed). -/
def jsSlice {α : Type} (l : List α) (s e : Int) : List α :=
  let a := jsSliceIdx l.length s
  let b := jsSliceIdx l.length e
  (l.drop a).take (b - a)

/-! ## ScoredNote (src/core/ranking.ts) -/

/-- Per-signal raw scores attached to a fused result (ScoredNote.signals). -/
structure Signals where
  composite : Option ℚ := none
  keyword : Option ℚ := none
  graph : Option ℚ := none
  rrf : Option ℚ := none
deriving DecidableEq

/-- Per-space scores attached by composite search (ScoredNote.spaces). -/
structure Spaces where
  text : ℚ
  temporal : ℚ
  vitality : ℚ
  importance : ℚ
  type : ℚ
  community : ℚ
deriving DecidableEq

/-- ScoredNote.metadata: the only key the engine reads is wasExploration. -/
structure Metadata where
  wasExploration : Bool
deriving DecidableEq

/-- A scored candidate note (interface ScoredNote in src/core/ranking.ts). -/
structure ScoredNote where
  title : String
  score : ℚ
  signals : Signals
  spaces : Option Spaces := none
  metadata : Option Metadata := none
deriving DecidableEq

/-- The check r.metadata?.wasExploration === true performed on served results. -/
def isExplorationFlagged (r : ScoredNote) : Bool :=
  match r.metadata with
  | some m => m.wasExploration
  | none => false

/-! ## Exploration injection (src/core/tracking.ts, injectExploration) -/

/-- One swap step of the Fisher-Yates loop; out-of-range indices leave the
list unchanged (never hit by the source loop). -/
def swapL {α : Type} (l : List α) (i j : Nat) : List α :=
  match l.get? i, l.get? j with
  | some a, some b => (l.set i b).set j a
  | _, _ => l

/-- The Fisher-Yates loop of injectExploration, counting i downwards;
rand i models Math.floor(Math.random() * (i + 1)), reduced mod (i + 1) so the
model is total for every rand. -/
def fyLoop {α : Type} (rand : Nat → Nat) : List α → Nat → List α
  | l, 0 => l
  | l, i + 1 => fyLoop rand (swapL l (i + 1) (rand (i + 1) % (i + 2))) i

/-- Fisher-Yates shuffle as performed on the candidate array. -/
def fisherYates {α : Type} (rand : Nat → Nat) (l : List α) : List α :=
  fyLoop rand l (l.length - 1)

/-- injectExploration from src/core/tracking.ts: replace the bottom budget
fraction of results with random notes not already present; injected entries
carry metadata.wasExploration = true.  rand supplies the Math.random stream. -/
def injectExploration (results : List ScoredNote) (allNotes : List String)
    (budget : ℚ) (rand : Nat → Nat) : List ScoredNote :=
  if budget ≤ 0 ∨ results.length = 0 then
    results
  else
    let replaceCount : Int := max 1 ⌊(results.length : ℚ) * budget⌋
    let existingTitles := results.map (fun r => r.title)
    let candidates := allNotes.filter (fun n => !existingTitles.contains n)
    let shuffled := fisherYates rand candidates
    let picks := jsSlice shuffled 0 replaceCount
    let keepCount : Int := (results.length : Int) - replaceCount
    let kept := jsSlice results 0 keepCount
    let injected := picks.map (fun title =>
      { title := title, score := 0, signals := {},
        metadata := some { wasExploration := true } : ScoredNote })
    let output := kept ++ injected
    if (picks.length : Int) < replaceCount then
      let deficit := replaceCount - (picks.length : Int)
      output ++ jsSlice results keepCount (keepCount + deficit)
    else output

/-! ## Piecewise-linear scalar encoding (engine.ts, encodePiecewiseLinear) -/

/-- encodePiecewiseLinear from the engine: clamp the value to the unit
interval, fully activate the bins below the value's bin, give the value's bin
its fractional fill, and saturate everything for v = 1. -/
def encodePiecewiseLinear (value : ℚ) (bins : Nat) : List ℚ :=
  let v := max 0 (min 1 value)
  let scaled := v * bins
  let binIndex : Int := min ⌊scaled⌋ ((bins : Int) - 1)
  let frac := scaled - binIndex
  let vec := (List.range bins).map (fun (i : Nat) =>
    if ((i : Int) < binIndex) then (1 : ℚ)
    else if ((i : Int) = binIndex) then frac else 0)
  if v ≥ 1 then (List.range bins).map (fun _ => (1 : ℚ)) else vec

/-! ## Character helpers shared by the tokenizer, the trimmer and the
intent patterns -/

/-- JS word character class \w = [A-Za-z0-9_] (ASCII, as used by \b). -/
def isWordChar (c : Char) : Bool :=
  (97 ≤ c.toNat && c.toNat ≤ 122) || (65 ≤ c.toNat && c.toNat ≤ 90) ||
  (48 ≤ c.toNat && c.toNat ≤ 57) || c == '_'

/-- JS whitespace class \s, restricted to its ASCII members (the corpus and
queries are ASCII text). -/
def isSpaceChar (c : Char) : Bool :=
  c == ' ' || c == '\t' || c == '\n' || c == '\r' ||
  c == '\x0b' || c == '\x0c'

/-- ASCII lowercasing of a string (String.prototype.toLowerCase on the
ASCII range actually exercised by the engine). -/
def lowerStr (s : String) : String :=
  String.mk (s.data.map Char.toLower)

/-- Does s start with sub (character-wise)? -/
def startsWithChars : List Char → List Char → Bool
  | _, [] => true
  | [], _ :: _ => false
  | a :: s, b :: t => a == b && startsWithChars s t

/-- JS String.prototype.includes over character lists. -/
def containsChars : List Char → List Char → Bool
  | s, sub =>
    startsWithChars s sub ||
      match s with
      | [] => false
      | _ :: rest => containsChars rest sub

/-- JS String.prototype.trim over character lists. -/
def trimChars (s : List Char) : List Char :=
  ((s.dropWhile isSpaceChar).reverse.dropWhile isSpaceChar).reverse

/-- JS String.prototype.trim. -/
def trimStr (s : String) : String := String.mk (trimChars s.data)

/-! ## The regular expressions of the intent rule table
(src/core/intent.ts, INTENT_PATTERNS)

Each pattern of the rule table uses only literal characters, the word
boundary \b, the whitespace run \s+ and an optional single character
(s?, -?), always under the /i flag.  RElem is exactly that fragment. -/

/-- One element of an intent regex. -/
inductive RElem where
  | lit (c : Char)
  | wb
  | ws
  | opt (c : Char)
deriving DecidableEq

/-- Word-boundary test between the previous character and the rest of the
input (none = string edge). -/
def isBoundaryAt (prev : Option Char) (s : List Char) : Bool :=
  let pw := match prev with | some c => isWordChar c | none => false
  let nw := match s with | c :: _ => isWordChar c | [] => false
  pw != nw

/-- Backtracking matcher for a pattern at the current position; prev is the
character just before the position, used for \b.  Case-insensitive: input
characters are lowercased, pattern literals are lowercase. -/
def matchElems : List RElem → Option Char → List Char → Bool
  | [], _, _ => true
  | .wb :: ps, prev, s => isBoundaryAt prev s && matchElems ps prev s
  | .lit c :: ps, _prev, s =>
      match s with
      | [] => false
      | a :: rest => a.toLower == c && matchElems ps (some a) rest
  | .opt c :: ps, prev, s =>
      (match s with
       | a :: rest => a.toLower == c && matchElems ps (some a) rest
       | [] => false) || matchElems ps prev s
  | .ws :: ps, _prev, s =>
      match s with
      | [] => false
      | a :: rest =>
          isSpaceChar a && (matchElems ps (some a) rest || matchElems (.ws :: ps) (some a) rest)
termination_by ps _ s => (s.length, ps.length)

/-- RegExp.prototype.test: try the pattern at every start position. -/
def testFrom (ps : List RElem) : Option Char → List Char → Bool
  | prev, s =>
    matchElems ps prev s ||
      match s with
      | [] => false
      | a :: rest => testFrom ps (some a) rest

/-- RegExp.prototype.test on a string. -/
def regexTest (ps : List RElem) (s : String) : Bool :=
  testFrom ps none s.data

/-- Literal word as a pattern fragment. -/
def lits (w : String) : List RElem := w.data.map RElem.lit

/-- Intent of a query (type QueryIntent in src/core/intent.ts). -/
inductive QueryIntent where
  | episodic
  | procedural
  | semantic
  | decision
deriving DecidableEq

/-- String form of an intent (its TS string-literal value). -/
def QueryIntent.toStr : QueryIntent → String
  | .episodic => "episodic"
  | .procedural => "procedural"
  | .semantic => "semantic"
  | .decision => "decision"

/-- The episodic patterns of INTENT_PATTERNS, in source order. -/
def episodicPatterns : List (List RElem) :=
  [[.wb] ++ lits "when" ++ [.ws] ++ lits "did" ++ [.wb],
   [.wb] ++ lits "last" ++ [.ws] ++ lits "time" ++ [.wb],
   [.wb] ++ lits "what" ++ [.ws] ++ lits "happened" ++ [.wb],
   [.wb] ++ lits "recently" ++ [.wb],
   [.wb] ++ lits "history" ++ [.ws] ++ lits "of" ++ [.wb],
   [.wb] ++ lits "timeline" ++ [.wb],
   [.wb] ++ lits "when" ++ [.ws] ++ lits "was" ++ [.wb],
   [.wb] ++ lits "remember" ++ [.ws] ++ lits "when" ++ [.wb]]

/-- The procedural patterns of INTENT_PATTERNS, in source order. -/
def proceduralPatterns : List (List RElem) :=
  [[.wb] ++ lits "how" ++ [.ws] ++ lits "to" ++ [.wb],
   [.wb] ++ lits "step" ++ [.opt 's', .ws] ++ lits "for" ++ [.wb],
   [.wb] ++ lits "process" ++ [.wb],
   [.wb] ++ lits "procedure" ++ [.wb],
   [.wb] ++ lits "instruction" ++ [.opt 's', .wb],
   [.wb] ++ lits "workflow" ++ [.wb],
   [.wb] ++ lits "how" ++ [.ws] ++ lits "do" ++ [.wb],
   [.wb] ++ lits "guide" ++ [.wb]]

/-- The decision patterns of INTENT_PATTERNS, in source order. -/
def decisionPatterns : List (List RElem) :=
  [[.wb] ++ lits "why" ++ [.ws] ++ lits "did" ++ [.ws] ++ lits "we" ++ [.wb],
   [.wb] ++ lits "decision" ++ [.wb],
   [.wb] ++ lits "chose" ++ [.wb],
   [.wb] ++ lits "choose" ++ [.wb],
   [.wb] ++ lits "alternative" ++ [.opt 's', .wb],
   [.wb] ++ lits "trade" ++ [.opt '-'] ++ lits "off" ++ [.wb],
   [.wb] ++ lits "rationale" ++ [.wb],
   [.wb] ++ lits "decided" ++ [.wb]]

/-- INTENT_PATTERNS: the ordered rule table (semantic has no patterns and is
the default). -/
def INTENT_PATTERNS : List (QueryIntent × List (List RElem)) :=
  [(.episodic, episodicPatterns),
   (.procedural, proceduralPatterns),
   (.decision, decisionPatterns)]

/-- Space weights emitted per intent (SPACE_WEIGHTS). -/
structure SpaceWeights where
  text : ℚ
  temporal : ℚ
  vitality : ℚ
  importance : ℚ
  type : ℚ
  community : ℚ
deriving DecidableEq

/-- Split weights emitted per intent (SPLIT_WEIGHTS). -/
structure SplitWeights where
  title : ℚ
  description : ℚ
  body : ℚ
deriving DecidableEq

/-- The SPACE_WEIGHTS table. -/
def SPACE_WEIGHTS : QueryIntent → SpaceWeights
  | .episodic =>
    { text := 40/100, temporal := 25/100, vitality := 15/100,
      importance := 5/100, type := 5/100, community := 10/100 }
  | .procedural =>
    { text := 30/100, temporal := 5/100, vitality := 10/100,
      importance := 30/100, type := 10/100, community := 15/100 }
  | .semantic =>
    { text := 65/100, temporal := 5/100, vitality := 10/100,
      importance := 10/100, type := 5/100, community := 5/100 }
  | .decision =>
    { text := 30/100, temporal := 15/100, vitality := 10/100,
      importance := 10/100, type := 30/100, community := 5/100 }

/-- The SPLIT_WEIGHTS table. -/
def SPLIT_WEIGHTS : QueryIntent → SplitWeights
  | .semantic => { title := 5/10, description := 3/10, body := 2/10 }
  | .episodic => { title := 2/10, description := 2/10, body := 6/10 }
  | .decision => { title := 4/10, description := 4/10, body := 2/10 }
  | .procedural => { title := 3/10, description := 3/10, body := 4/10 }

/-- Result of intent classification (interface ClassifiedQuery). -/
structure ClassifiedQuery where
  intent : QueryIntent
  confidence : ℚ
  query : String
  entities : List String
  spaceWeights : SpaceWeights
  splitWeights : SplitWeights
deriving DecidableEq

/-- extractEntities: substring-match lowercased titles of length at least 3
against the lowercased query, then stable-sort by length descending. -/
def extractEntities (query : String) (noteIndex : List String) : List String :=
  let queryLower := lowerStr query
  let entities := noteIndex.filter (fun title =>
    let titleLower := lowerStr title
    containsChars queryLower.data titleLower.data && titleLower.length ≥ 3)
  List.insertionSort (fun a b => b.length ≤ a.length) entities

/-- Number of patterns of one intent entry matching the query. -/
def intentMatchCount (patterns : List (List RElem)) (query : String) : Nat :=
  (patterns.filter (fun p => regexTest p query)).length

/-- classifyIntent from src/core/intent.ts: scan the rule table keeping the
first intent whose match count strictly exceeds the best so far (initially
semantic with score 0). -/
def classifyIntent (query : String) (noteIndex : List String) : ClassifiedQuery :=
  let best := INTENT_PATTERNS.foldl
    (fun (best : QueryIntent × Nat) entry =>
      let matchCount := intentMatchCount entry.2 query
      if best.2 < matchCount then (entry.1, matchCount) else best)
    (QueryIntent.semantic, 0)
  let confidence : ℚ := if best.2 ≥ 2 then 1 else if best.2 = 1 then 7/10 else 1/2
  { intent := best.1
    confidence := confidence
    query := query
    entities := extractEntities query noteIndex
    spaceWeights := SPACE_WEIGHTS best.1
    splitWeights := SPLIT_WEIGHTS best.1 }

/-! ## Link graph (src/core/graph.ts, file part_008) -/

/-- The two adjacency indexes (type LinkGraph). -/
structure LinkGraph where
  outgoing : List (String × List String)
  incoming : List (String × List String)
deriving DecidableEq

/-- The matchAll loop over /\[\[([^\]]+)\]\]/g : every capture, in order,
continuing after each match. -/
def extractLinkTargets : List Char → List String
  | '[' :: '[' :: rest =>
      let run := rest.takeWhile (fun c => c ≠ ']')
      if startsWithChars (rest.drop run.length) [']', ']'] ∧ run.length > 0 then
        String.mk run :: extractLinkTargets (rest.drop (run.length + 2))
      else extractLinkTargets ('[' :: rest)
  | _ :: rest => extractLinkTargets rest
  | [] => []
termination_by s => s.length
decreasing_by
  all_goals simp [List.length_drop]
  all_goals omega

/-- The link set of one note body: captures trimmed, empties dropped,
collected into a JS Set. -/
def collectLinks (content : String) : List String :=
  (extractLinkTargets content.data).foldl
    (fun links raw =>
      let target := trimStr raw
      if target.length > 0 then setAdd links target else links)
    []

/-- Record one incoming edge target <- source. -/
def addIncoming (incoming : List (String × List String)) (target source : String) :
    List (String × List String) :=
  match mapGet incoming target with
  | none => incoming ++ [(target, [source])]
  | some s => mapSet incoming target (setAdd s source)

/-- Process one note file into the graph accumulator. -/
def buildGraphStep (g : LinkGraph) (note : String × String) : LinkGraph :=
  let title := note.1
  let links := collectLinks note.2
  { outgoing := mapSet g.outgoing title links
    incoming := links.foldl (fun inc target => addIncoming inc target title) g.incoming }

/-- buildGraph from src/core/graph.ts over a corpus of (title, file content)
pairs (titles are the markdown base names). -/
def buildGraph (corpus : List (String × String)) : LinkGraph :=
  corpus.foldl buildGraphStep { outgoing := [], incoming := [] }

/-- findOrphans: notes with no incoming entry. -/
def findOrphans (graph : LinkGraph) (allNotes : List String) : List String :=
  allNotes.filter (fun note => (mapGet graph.incoming note).isNone)

/-- findDanglingLinks: link targets that are not existing notes, deduplicated
and sorted. -/
def findDanglingLinks (graph : LinkGraph) (allNotes : List String) : List String :=
  let dangling := graph.outgoing.foldl
    (fun d entry =>
      entry.2.foldl
        (fun d target => if allNotes.contains target then d else setAdd d target) d)
    []
  List.insertionSort (fun a b : String => a ≤ b) dangling

/-- findBacklinks: sources of a note, sorted. -/
def findBacklinks (graph : LinkGraph) (note : String) : List String :=
  List.insertionSort (fun a b : String => a ≤ b) ((mapGet graph.incoming note).getD [])

/-! ## Configuration records (src/core/config.ts) -/

/-- retrieval.signal_weights. -/
structure SignalWeights where
  composite : ℚ
  keyword : ℚ
  graph : ℚ
deriving DecidableEq

/-- RetrievalConfig. -/
structure RetrievalConfig where
  default_limit : Nat
  candidate_multiplier : Nat
  rrf_k : ℚ
  signal_weights : SignalWeights
  exploration_budget : ℚ
deriving DecidableEq

/-- BM25Config. -/
structure BM25Config where
  k1 : ℚ
  b : ℚ
  title_boost : ℚ
  description_boost : ℚ
deriving DecidableEq

/-- EngineConfig (the paths and the model name live in Env). -/
structure EngineConfig where
  piecewise_bins : Nat
  community_dims : Nat
deriving DecidableEq

/-- GraphConfig. -/
structure GraphConfig where
  pagerank_alpha : ℚ
  bridge_vitality_floor : ℚ
deriving DecidableEq

/-- The optional vitality tuning keys read by the ranked-query path. -/
structure VitalityTuning where
  metabolic_rates_notes : Option ℚ
  actr_decay : Option ℚ
  access_saturation_k : Option ℚ
deriving DecidableEq

/-- The slice of OriConfig the retrieval engine consumes. -/
structure OriConfig where
  engine : EngineConfig
  retrieval : RetrievalConfig
  bm25 : BM25Config
  graph : GraphConfig
  vitality : VitalityTuning
deriving DecidableEq

/-! ## BM25 (src/core/bm25.ts) -/

/-- The fixed English stopword list. -/
def STOPWORDS : List String :=
  ["a", "an", "and", "are", "as", "at", "be", "by", "for", "from",
   "has", "he", "in", "is", "it", "its", "of", "on", "or", "that",
   "the", "to", "was", "were", "will", "with"]

/-- Lowercase alphanumeric test ([a-z0-9] after toLowerCase). -/
def isAlnumLower (c : Char) : Bool :=
  (97 ≤ c.toNat && c.toNat ≤ 122) || (48 ≤ c.toNat && c.toNat ≤ 57)

/-- Maximal [a-z0-9] runs of a lowercased character list; equivalent to
.split(/[^a-z0-9]+/) once empty fragments are dropped by the length filter. -/
def alnumRuns : List Char → List String
  | [] => []
  | c :: rest =>
      if isAlnumLower c then
        let run := c :: rest.takeWhile isAlnumLower
        String.mk run :: alnumRuns (rest.drop (run.length - 1))
      else alnumRuns rest
termination_by s => s.length
decreasing_by
  all_goals simp [List.length_drop]
  all_goals omega

/-- tokenize: lowercase, split on non-alphanumerics, keep tokens of length
at least 2 that are not stopwords. -/
def tokenize (text : String) : List String :=
  (alnumRuns (text.data.map Char.toLower)).filter
    (fun t => t.length ≥ 2 && !STOPWORDS.contains t)

/-- BM25Index. -/
structure BM25Index where
  termFreqs : List (String × List (String × ℚ))
  docLengths : List (String × ℚ)
  avgDocLength : ℚ
  docCount : Nat
deriving DecidableEq

/-- One document as consumed by buildBM25Index. -/
structure BMDoc where
  title : String
  description : String
  body : String
deriving DecidableEq

/-- The weighted token bag of one document. -/
def bm25Bag (doc : BMDoc) (config : BM25Config) : List (String × ℚ) :=
  let bag := (tokenize doc.title).foldl
    (fun bag t => mapSet bag t ((mapGet bag t).getD 0 + config.title_boost)) []
  let bag := (tokenize doc.description).foldl
    (fun bag t => mapSet bag t ((mapGet bag t).getD 0 + config.description_boost)) bag
  (tokenize doc.body).foldl
    (fun bag t => mapSet bag t ((mapGet bag t).getD 0 + 1)) bag

/-- buildBM25Index from src/core/bm25.ts. -/
def buildBM25Index (docs : List BMDoc) (config : BM25Config) : BM25Index :=
  let step := fun (acc : List (String × List (String × ℚ)) × List (String × ℚ)) doc =>
    let bag := bm25Bag doc config
    let docLen := bag.foldl (fun docLen e => docLen + e.2) (0 : ℚ)
    let docLengths := mapSet acc.2 doc.title docLen
    let termFreqs := bag.foldl
      (fun tf e => mapSet tf e.1 (mapSet ((mapGet tf e.1).getD []) doc.title e.2)) acc.1
    (termFreqs, docLengths)
  let built := docs.foldl step ([], [])
  let totalLength := (built.2.map (fun e => e.2)).foldl (fun a b => a + b) (0 : ℚ)
  let avgDocLength := if docs.length > 0 then totalLength / docs.length else 0
  { termFreqs := built.1
    docLengths := built.2
    avgDocLength := avgDocLength
    docCount := docs.length }

/-- searchBM25 needs Math.log for the idf term; logQ is that primitive. -/
def searchBM25 (logQ : ℚ → ℚ) (query : String) (index : BM25Index)
    (config : BM25Config) (limit : Nat) : List ScoredNote :=
  let queryTokens := tokenize query
  if queryTokens.length = 0 then []
  else
    let N : ℚ := index.docCount
    let scores := queryTokens.foldl
      (fun (scores : List (String × ℚ)) term =>
        match mapGet index.termFreqs term with
        | none => scores
        | some docMap =>
          let n : ℚ := docMap.length
          let idf := logQ ((N - n + 1/2) / (n + 1/2) + 1)
          docMap.foldl
            (fun scores e =>
              let tf := e.2
              let dl := (mapGet index.docLengths e.1).getD 0
              let tfNorm := (tf * (config.k1 + 1)) /
                (tf + config.k1 * (1 - config.b + config.b * (dl / index.avgDocLength)))
              mapSet scores e.1 ((mapGet scores e.1).getD 0 + idf * tfNorm))
            scores)
      []
    let results := scores.map (fun e =>
      ({ title := e.1, score := e.2, signals := { keyword := some e.2 } } : ScoredNote))
    jsSlice (List.insertionSort (fun a b : ScoredNote => b.score ≤ a.score) results) 0 limit

/-! ## Score-weighted RRF fusion (src/core/fusion.ts) -/

/-- An entry of the per-signal rank index (interface RankEntry). -/
structure RankEntry where
  rank : Nat
  score : ℚ
  note : ScoredNote
deriving DecidableEq

/-- The three signal result lists (interface SignalResults). -/
structure SignalResults where
  composite : List ScoredNote
  keyword : List ScoredNote
  graph : List ScoredNote
deriving DecidableEq

/-- buildIndex from fusion.ts: title to (rank, score, note). -/
def buildRankIdx (notes : List ScoredNote) : List (String × RankEntry) :=
  notes.enum.foldl
    (fun m p => mapSet m p.2.title { rank := p.1, score := p.2.score, note := p.2 }) []

/-- The insertion-ordered set of titles appearing in any signal, composite
then keyword then graph. -/
def fusionTitles (signals : SignalResults) : List String :=
  let t := (signals.composite.map (fun n => n.title)).foldl setAdd []
  let t := (signals.keyword.map (fun n => n.title)).foldl setAdd t
  (signals.graph.map (fun n => n.title)).foldl setAdd t

/-- The contribution of one signal to the fused score. -/
def rrfTerm (k : ℚ) (w : ℚ) (entry : Option RankEntry) : ℚ :=
  match entry with
  | some e => w * e.score / (k + (e.rank : ℚ) + 1)
  | none => 0

/-- The fused note built for one title (the body of the per-title loop of
fuseScoreWeightedRRF, with the three-signal loop unrolled in its fixed
composite, keyword, graph order). -/
def fuseNoteFor (k : ℚ) (weights : SignalWeights)
    (idxC idxK idxG : List (String × RankEntry)) (title : String) : ScoredNote :=
  let eC := mapGet idxC title
  let eK := mapGet idxK title
  let eG := mapGet idxG title
  let fusedScore := 0 + rrfTerm k weights.composite eC + rrfTerm k weights.keyword eK +
    rrfTerm k weights.graph eG
  let metadata := (eC.bind (fun e => e.note.metadata)).orElse
    (fun _ => (eK.bind (fun e => e.note.metadata)).orElse
      (fun _ => eG.bind (fun e => e.note.metadata)))
  let spaces := (eC.bind (fun e => e.note.spaces)).orElse
    (fun _ => (eK.bind (fun e => e.note.spaces)).orElse
      (fun _ => eG.bind (fun e => e.note.spaces)))
  { title := title
    score := fusedScore
    signals :=
      { composite := eC.map (fun e => e.score)
        keyword := eK.map (fun e => e.score)
        graph := eG.map (fun e => e.score)
        rrf := some fusedScore }
    spaces := spaces
    metadata := metadata }

/-- fuseScoreWeightedRRF from src/core/fusion.ts. -/
def fuseScoreWeightedRRF (signals : SignalResults) (config : RetrievalConfig) :
    List ScoredNote :=
  let k := config.rrf_k
  let weights := config.signal_weights
  let idxC := buildRankIdx signals.composite
  let idxK := buildRankIdx signals.keyword
  let idxG := buildRankIdx signals.graph
  let results := (fusionTitles signals).map (fuseNoteFor k weights idxC idxK idxG)
  List.insertionSort (fun a b : ScoredNote => b.score ≤ a.score) results

/-! ## Frontmatter (src/core/frontmatter.ts)

yaml.parse is an external library; the Env supplies it as yamlData, returning
the typed view of the keys the engine reads (none models a yaml parse
error / null data). -/

/-- Typed view of a parsed YAML header. -/
structure Frontmatter where
  description : Option String := none
  type : Option String := none
  project : List String := []
  access_count : Option ℚ := none
  created : Option String := none
deriving DecidableEq

/-- content.split with the /\r?\n/ separator. -/
def splitLinesAux : List Char → List Char → List String
  | acc, [] => [String.mk acc.reverse]
  | acc, '\r' :: '\n' :: rest => String.mk acc.reverse :: splitLinesAux [] rest
  | acc, '\n' :: rest => String.mk acc.reverse :: splitLinesAux [] rest
  | acc, c :: rest => splitLinesAux (c :: acc) rest

/-- content.split over a string. -/
def splitLines (s : String) : List String := splitLinesAux [] s.data

/-- parseFrontmatter: split the optional header delimited by two lines that
are exactly three dashes from the body; yamlData stands for yaml.parse. -/
def parseFrontmatter (yamlData : String → Option Frontmatter) (content : String) :
    Option Frontmatter × String :=
  let lines := splitLines content
  match lines with
  | [] => (none, content)
  | first :: rest =>
    if first ≠ "---" then (none, content)
    else
      match rest.findIdx? (fun l => l = "---") with
      | none => (none, content)
      | some i =>
        let raw := String.intercalate "\n" (rest.take i)
        (yamlData raw, String.intercalate "\n" (rest.drop (i + 1)))

/-! ## Embedding engine helpers (engine.ts) -/

/-- cosine from engine.ts; sqrtQ stands for Math.sqrt. -/
def cosine (sqrtQ : ℚ → ℚ) (a b : List ℚ) : ℚ :=
  if a.length ≠ b.length ∨ a.length = 0 then 0
  else
    let dot := ((a.zip b).map (fun p => p.1 * p.2)).foldl (fun x y => x + y) 0
    let normA := (a.map (fun x => x * x)).foldl (fun x y => x + y) 0
    let normB := (b.map (fun x => x * x)).foldl (fun x y => x + y) 0
    let denom := sqrtQ normA * sqrtQ normB
    if denom = 0 then 0 else dot / denom

/-- Euclidean norm (vectorNorm helper of engine.ts). -/
def vectorNorm (sqrtQ : ℚ → ℚ) (v : List ℚ) : ℚ :=
  sqrtQ ((v.map (fun x => x * x)).foldl (fun x y => x + y) 0)

/-- TYPE_LABELS. -/
def TYPE_LABELS : List String :=
  ["idea", "decision", "learning", "insight", "blocker", "opportunity"]

/-- encodeType: one-hot over the six labels, zero for unknown types. -/
def encodeType (noteType : String) : List ℚ :=
  match TYPE_LABELS.findIdx? (fun l => l = noteType) with
  | some j => (List.range 6).map (fun i => if i = j then (1 : ℚ) else 0)
  | none => (List.range 6).map (fun _ => (0 : ℚ))

/-- The small primes of the community projection. -/
def PRIMES : List Nat :=
  [2, 3, 5, 7, 11, 13, 17, 19, 23, 29, 31, 37, 41, 43, 47, 53]

/-- encodeCommunity: alternating sine / cosine of communityId * prime / total;
sinQ and cosQ stand for Math.sin and Math.cos. -/
def encodeCommunity (sinQ cosQ : ℚ → ℚ) (communityId : Nat)
    (totalCommunities : Nat) (dims : Nat) : List ℚ :=
  let tc : ℚ := max (totalCommunities : ℚ) 1
  (List.range dims).map (fun d =>
    let prime := (PRIMES.get? (d % PRIMES.length)).getD 2
    let angle := ((communityId * prime : Nat) : ℚ) / tc
    if d % 2 = 0 then sinQ angle else cosQ angle)

/-- Stored row of the embeddings table (interface StoredVectors). -/
structure StoredVectors where
  titleVec : List ℚ
  descVec : List ℚ
  bodyVec : List ℚ
  typeVec : List ℚ
  communityVec : List ℚ
  contentHash : String
  indexedAt : String
deriving DecidableEq

/-- ASCII uppercasing (String.prototype.toUpperCase on the exercised range). -/
def upperStr (s : String) : String :=
  String.mk (s.data.map Char.toUpper)

/-- buildKnowledgeEnrichedText from engine.ts (its body argument is unused in
the source as well). -/
def buildKnowledgeEnrichedText (title : String) (frontmatter : Frontmatter)
    (_body : String) (linkGraph : LinkGraph) : String :=
  let noteType := frontmatter.type.getD ""
  let projects := String.intercalate ", " frontmatter.project
  let description := frontmatter.description.getD ""
  let connected := String.intercalate ", " (((mapGet linkGraph.outgoing title).getD []).take 10)
  let parts : List String :=
    (if noteType ≠ "" ∨ projects ≠ "" then
      let typePart := if noteType ≠ "" then "[" ++ upperStr noteType ++ "]" else ""
      let projPart := if projects ≠ "" then "[" ++ projects ++ "]" else ""
      [String.intercalate " " (([typePart, projPart]).filter (fun p => p ≠ ""))]
    else []) ++
    [title] ++
    (if description ≠ "" then [description] else []) ++
    (if connected ≠ "" then ["Connected: " ++ connected] else [])
  String.intercalate "\n" parts

/-! ## Graph metrics (src/core/importance.ts)

graphology's Graph object is modelled by explicit node and edge lists; the
three algorithms imported from graphology libraries (pagerank, louvain,
betweenness) are Env parameters, everything else is translated. -/

/-- A graphology directed graph (simple, no multi-edges). -/
structure GGraph where
  nodes : List String
  edges : List (String × String)
deriving DecidableEq

/-- graph.hasNode. -/
def GGraph.hasNode (g : GGraph) (n : String) : Bool := g.nodes.contains n

/-- graph.addNode (no-op when present). -/
def GGraph.addNode (g : GGraph) (n : String) : GGraph :=
  if g.hasNode n then g else { g with nodes := g.nodes ++ [n] }

/-- graph.hasEdge for the directed graph. -/
def GGraph.hasEdge (g : GGraph) (a b : String) : Bool := g.edges.contains (a, b)

/-- graph.addEdge. -/
def GGraph.addEdge (g : GGraph) (a b : String) : GGraph :=
  { g with edges := g.edges ++ [(a, b)] }

/-- graph.forEachOutNeighbor enumeration order. -/
def GGraph.outNeighbors (g : GGraph) (n : String) : List String :=
  (g.edges.filter (fun e => e.1 = n)).map (fun e => e.2)

/-- graph.forEachInNeighbor enumeration order. -/
def GGraph.inNeighbors (g : GGraph) (n : String) : List String :=
  (g.edges.filter (fun e => e.2 = n)).map (fun e => e.1)

/-- graph.outDegree. -/
def GGraph.outDegree (g : GGraph) (n : String) : Nat := (g.outNeighbors n).length

/-- graph.inDegree. -/
def GGraph.inDegree (g : GGraph) (n : String) : Nat := (g.inNeighbors n).length

/-- graph.order. -/
def GGraph.order (g : GGraph) : Nat := g.nodes.length

/-- buildGraphologyGraph from importance.ts. -/
def buildGraphologyGraph (linkGraph : LinkGraph) : GGraph :=
  let allNodes := (linkGraph.outgoing.map (fun e => e.1)).foldl setAdd []
  let allNodes := (linkGraph.incoming.map (fun e => e.1)).foldl setAdd allNodes
  let allNodes := linkGraph.outgoing.foldl (fun ns e => e.2.foldl setAdd ns) allNodes
  let g := allNodes.foldl GGraph.addNode { nodes := [], edges := [] }
  linkGraph.outgoing.foldl
    (fun g e => e.2.foldl
      (fun g target => if g.hasEdge e.1 target then g else g.addEdge e.1 target) g)
    g

/-- computePageRank: the graphology pagerank call is the Env-supplied
pagerankLib; the wrapper fills absent nodes with 0 in node order. -/
def computePageRank (pagerankLib : GGraph → ℚ → List (String × ℚ))
    (g : GGraph) (alpha : ℚ) : List (String × ℚ) :=
  let scores := pagerankLib g alpha
  g.nodes.map (fun n => (n, (mapGet scores n).getD 0))

/-- Undirected hasEdge used while symmetrizing for louvain. -/
def hasEdgeU (edges : List (String × String)) (a b : String) : Bool :=
  edges.contains (a, b) || edges.contains (b, a)

/-- detectCommunities: symmetrize (dropping self-loops), then the louvain
library call (louvainLib). -/
def detectCommunities (louvainLib : GGraph → List (String × Nat)) (g : GGraph) :
    List (String × Nat) :=
  let undirected : GGraph :=
    { nodes := g.nodes
      edges := g.edges.foldl
        (fun es e => if e.1 ≠ e.2 ∧ !hasEdgeU es e.1 e.2 then es ++ [e] else es) [] }
  louvainLib undirected

/-- The frontmatter map passed to findBridgeNotes (interface NoteIndex). -/
structure NoteIndex where
  frontmatter : List (String × Frontmatter)
deriving DecidableEq

/-- State threaded through the articulation-point DFS of findBridgeNotes. -/
structure TarjanSt where
  visited : List String
  disc : List (String × Nat)
  low : List (String × Nat)
  parent : List (String × Option String)
  bridges : List String
  timer : Nat
deriving DecidableEq

/-- Undirected neighbor set of the DFS (out neighbors then in neighbors). -/
def tarjanNeighbors (g : GGraph) (u : String) : List String :=
  (g.inNeighbors u).foldl setAdd ((g.outNeighbors u).foldl setAdd [])

/-- The comparison v !== parent.get(u) of the dfs (v is a node name, so it
differs from both undefined and null). -/
def tarjanNotParent (parentEntry : Option (Option String)) (v : String) : Bool :=
  match parentEntry with
  | some (some p) => v ≠ p
  | _ => true

/-- The recursive dfs of findBridgeNotes.  The fuel argument only bounds the
recursion depth for totality; the depth never exceeds the node count because
every recursive call enters an unvisited node. -/
def tarjanDFS (g : GGraph) : Nat → String → TarjanSt → TarjanSt
  | 0, _, st => st
  | fuel + 1, u, st =>
    let st := { st with
      visited := setAdd st.visited u
      disc := mapSet st.disc u st.timer
      low := mapSet st.low u st.timer
      timer := st.timer + 1 }
    let res := (tarjanNeighbors g u).foldl
      (fun (acc : TarjanSt × Nat) v =>
        let st := acc.1
        let children := acc.2
        if v ∈ st.visited then
          if tarjanNotParent (mapGet st.parent u) v then
            let lowv := min ((mapGet st.low u).getD 0) ((mapGet st.disc v).getD 0)
            ({ st with low := mapSet st.low u lowv }, children)
          else (st, children)
        else
          let children := children + 1
          let st := { st with parent := mapSet st.parent v (some u) }
          let st := tarjanDFS g fuel v st
          let lowv := min ((mapGet st.low u).getD 0) ((mapGet st.low v).getD 0)
          let st := { st with low := mapSet st.low u lowv }
          let st := if (mapGet st.parent u) = some none ∧ children > 1 then
              { st with bridges := setAdd st.bridges u } else st
          let st := if (mapGet st.parent u) ≠ some none ∧
              ((mapGet st.low v).getD 0) ≥ ((mapGet st.disc u).getD 0) then
              { st with bridges := setAdd st.bridges u } else st
          (st, children))
      (st, 0)
    res.1

/-- findBridgeNotes from importance.ts: articulation points, high-in-degree
hubs, map or index notes, and cross-project connectors. -/
def findBridgeNotes (g : GGraph) (noteIndex : Option NoteIndex) : List String :=
  let st0 : TarjanSt :=
    { visited := [], disc := [], low := [], parent := [], bridges := [], timer := 0 }
  let st := g.nodes.foldl
    (fun st node =>
      if node ∈ st.visited then st
      else tarjanDFS g g.nodes.length node
        { st with parent := mapSet st.parent node none })
    st0
  let bridges := st.bridges
  let inDegrees := List.insertionSort (fun a b : Nat => a ≤ b)
    (g.nodes.map (fun n => g.inDegree n))
  let median := if inDegrees.length > 0 then (inDegrees.get? (inDegrees.length / 2)).getD 0 else 0
  let hubThreshold := median * 2
  let bridges := g.nodes.foldl
    (fun bs node =>
      if g.inDegree node > hubThreshold ∧ hubThreshold > 0 then setAdd bs node else bs)
    bridges
  let bridges := g.nodes.foldl
    (fun bs node =>
      if startsWithChars node.data.reverse (" map".data.reverse) ∨ node = "index" then
        setAdd bs node
      else bs)
    bridges
  match noteIndex with
  | none => bridges
  | some idx => idx.frontmatter.foldl
      (fun bs e =>
        if e.2.project.length ≥ 2 ∧ g.hasNode e.1 ∧ g.inDegree e.1 ≥ 3 then
          setAdd bs e.1
        else bs)
      bridges

/-- CommunityInfo (the vitality fields are never filled by this path). -/
structure CommunityInfo where
  size : Nat
  members : List String
deriving DecidableEq

/-- GraphMetrics. -/
structure GraphMetrics where
  pagerank : List (String × ℚ)
  communities : List (String × Nat)
  bridges : List String
  betweenness : List (String × ℚ)
  communityStats : List (Nat × CommunityInfo)
deriving DecidableEq

/-- computeBetweenness: betweennessLib is the graphology call. -/
def computeBetweenness (betweennessLib : GGraph → List (String × ℚ)) (g : GGraph) :
    List (String × ℚ) :=
  let scores := betweennessLib g
  g.nodes.map (fun n => (n, (mapGet scores n).getD 0))

/-- computeGraphMetrics from importance.ts (pagerank at its default
alpha 0.85). -/
def computeGraphMetrics (pagerankLib : GGraph → ℚ → List (String × ℚ))
    (louvainLib : GGraph → List (String × Nat))
    (betweennessLib : GGraph → List (String × ℚ))
    (linkGraph : LinkGraph) (noteIndex : Option NoteIndex) : GraphMetrics :=
  let g := buildGraphologyGraph linkGraph
  let pr := computePageRank pagerankLib g (85/100)
  let communities := detectCommunities louvainLib g
  let bridges := findBridgeNotes g noteIndex
  let betweenness := computeBetweenness betweennessLib g
  let communityStats := communities.foldl
    (fun stats e =>
      match mapGet stats e.2 with
      | none => mapSet stats e.2 { size := 1, members := [e.1] }
      | some s => mapSet stats e.2 { size := s.size + 1, members := s.members ++ [e.1] })
    []
  { pagerank := pr, communities := communities, bridges := bridges,
    betweenness := betweenness, communityStats := communityStats }

/-- personalizedPageRank from importance.ts: damped power iteration with the
teleport mass on the seed set (uniform over all nodes when no seed is valid). -/
def personalizedPageRank (g : GGraph) (seeds : List String) (alpha : ℚ)
    (iterations : Nat) : List (String × ℚ) :=
  if g.order = 0 then []
  else
    let validSeeds := seeds.filter (fun s => g.hasNode s)
    let personalization :=
      if validSeeds.length = 0 then
        g.nodes.map (fun n => (n, (1 : ℚ) / g.order))
      else
        validSeeds.foldl
          (fun m seed => mapSet m seed ((1 : ℚ) / validSeeds.length))
          (g.nodes.map (fun n => (n, (0 : ℚ))))
    let step := fun (scores : List (String × ℚ)) =>
      let newScores := g.nodes.map (fun n => (n, (0 : ℚ)))
      let newScores := g.nodes.foldl
        (fun ns node =>
          let outDeg := g.outDegree node
          if outDeg = 0 then ns
          else
            let share := (mapGet scores node).getD 0 / outDeg
            (g.outNeighbors node).foldl
              (fun ns neighbor => mapSet ns neighbor ((mapGet ns neighbor).getD 0 + share))
              ns)
        newScores
      g.nodes.foldl
        (fun ns node =>
          let damped := alpha * ((mapGet ns node).getD 0)
          let restart := (1 - alpha) * ((mapGet personalization node).getD 0)
          mapSet ns node (damped + restart))
        newScores
    (List.range iterations).foldl (fun s _ => step s) personalization

/-! ## Vitality (src/core/vitality.ts); expQ and logQ stand for Math.exp and
Math.log, date strings are resolved to epoch milliseconds by getTime. -/

/-- daysBetween over epoch milliseconds. -/
def daysBetween (aMs bMs : ℚ) : ℚ := |bMs - aMs| / 86400000

/-- computeVitalityACTR. -/
def computeVitalityACTR (expQ logQ : ℚ → ℚ)
    (accessCount lifetimeDays d : ℚ) : ℚ :=
  if accessCount ≤ 0 then 1/2
  else if lifetimeDays ≤ 0 then 1
  else
    let dClamped := max (1/100) (min d (99/100))
    let B := logQ (accessCount / (1 - dClamped)) - dClamped * logQ lifetimeDays
    1 / (1 + expQ (-B))

/-- computeStructuralBoost. -/
def computeStructuralBoost (inDegree : ℚ) : ℚ := 1 + (1/10) * min inDegree 10

/-- computeRevivalBoost. -/
def computeRevivalBoost (expQ : ℚ → ℚ) (daysSinceNewConnection : Option ℚ) : ℚ :=
  match daysSinceNewConnection with
  | none => 0
  | some d => if d < 0 then 0 else if d ≥ 14 then 0 else expQ (-(2/10) * d)

/-- computeAccessSaturation. -/
def computeAccessSaturation (expQ : ℚ → ℚ) (accessCount k : ℚ) : ℚ :=
  if accessCount ≤ 0 then 0 else 1 - expQ (-(accessCount / k))

/-- VitalityFullParams. -/
structure VitalityFullParams where
  accessCount : ℚ
  created : String
  noteTitle : String
  inDegree : ℚ
  bridges : List String
  metabolicRate : ℚ := 1
  daysSinceNewConnection : Option ℚ := none
  actrDecay : ℚ := 1/2
  accessSaturationK : ℚ := 10
  bridgeFloor : ℚ := 1/2

/-- computeVitalityFull: the six stages in source order. -/
def computeVitalityFull (expQ logQ : ℚ → ℚ) (getTime : String → ℚ) (nowMs : ℚ)
    (params : VitalityFullParams) : ℚ :=
  let lifetimeDays := daysBetween (getTime params.created) nowMs
  let effectiveDecay := params.actrDecay * params.metabolicRate
  let vitality := computeVitalityACTR expQ logQ params.accessCount lifetimeDays effectiveDecay
  let vitality := vitality * computeStructuralBoost params.inDegree
  let vitality := vitality *
    (1/2 + (1/2) * computeAccessSaturation expQ params.accessCount params.accessSaturationK)
  let vitality := vitality + computeRevivalBoost expQ params.daysSinceNewConnection * (2/10)
  let vitality :=
    if params.noteTitle ∈ params.bridges then max vitality params.bridgeFloor else vitality
  max 0 (min 1 vitality)

/-! ## The propensity log event (src/core/tracking.ts, AccessEvent) -/

/-- One served entry of an access event. -/
structure AccessResultEntry where
  title : String
  rank : Nat
  score : ℚ
  propensity : ℚ
  wasExploration : Bool
deriving DecidableEq

/-- AccessEvent. -/
structure AccessEvent where
  timestamp : String
  query : String
  intent : String
  results : List AccessResultEntry
deriving DecidableEq

/-! ## The environment: vault state plus every external primitive -/

/-- Everything outside the repository's own code: the vault state on disk,
the runtime numeric intrinsics, the external libraries, the random stream,
the clock, and the outcome of the one fallible effect in the ranked-query
path (appending to the propensity log). -/
structure Env where
  embed : String → List ℚ
  sqrtQ : ℚ → ℚ
  expQ : ℚ → ℚ
  logQ : ℚ → ℚ
  sinQ : ℚ → ℚ
  cosQ : ℚ → ℚ
  hash : String → String
  getTime : String → ℚ
  nowMs : ℚ
  nowIso : String
  rand : Nat → Nat
  pagerankLib : GGraph → ℚ → List (String × ℚ)
  louvainLib : GGraph → List (String × Nat)
  betweennessLib : GGraph → List (String × ℚ)
  yamlData : String → Option Frontmatter
  notes : List (String × String)
  db : Option (List (String × StoredVectors))
  config : OriConfig
  logAppend : AccessEvent → Except String Unit

/-! ## Index build (engine.ts, indexNote / buildIndex) -/

/-- INSERT OR REPLACE on the embeddings table keyed by title (sqlite REPLACE
deletes the conflicting row and appends the new one). -/
def dbUpsert (db : List (String × StoredVectors)) (title : String)
    (row : StoredVectors) : List (String × StoredVectors) :=
  (db.filter (fun e => e.1 ≠ title)) ++ [(title, row)]

/-- indexNote from engine.ts. -/
def indexNote (env : Env) (db : List (String × StoredVectors)) (title : String)
    (frontmatter : Frontmatter) (body : String) (linkGraph : LinkGraph)
    (communities : List (String × Nat)) (totalCommunities : Nat) :
    List (String × StoredVectors) :=
  let enrichedText := buildKnowledgeEnrichedText title frontmatter body linkGraph
  let description := frontmatter.description.getD ""
  let noteType := frontmatter.type.getD ""
  let communityId := (mapGet communities title).getD 0
  let titleVec := env.embed title
  let descVec := env.embed (if description ≠ "" then description else title)
  let bodyVec := env.embed enrichedText
  let typeVec := encodeType noteType
  let communityVec := encodeCommunity env.sinQ env.cosQ communityId totalCommunities
    env.config.engine.community_dims
  let contentHashValue := env.hash (title ++ "\n" ++ description ++ "\n" ++ body)
  dbUpsert db title
    { titleVec := titleVec, descVec := descVec, bodyVec := bodyVec,
      typeVec := typeVec, communityVec := communityVec,
      contentHash := contentHashValue, indexedAt := env.nowIso }

/-- Index build statistics (interface IndexStats; durationMs and model name
are reporting-only and omitted). -/
structure IndexStats where
  indexed : Nat
  skipped : Nat
  total : Nat
deriving DecidableEq

/-- The per-note loop body of buildIndex from engine.ts: skip the note when
unforced and the stored hash matches the current content hash, else index it. -/
def buildIndexStep (env : Env) (force : Bool)
    (existingHashes : List (String × String)) (linkGraph : LinkGraph)
    (communities : List (String × Nat)) (totalCommunities : Nat)
    (acc : Nat × Nat × List (String × StoredVectors)) (file : String × String) :
    Nat × Nat × List (String × StoredVectors) :=
  let title := file.1
  let parsed := parseFrontmatter env.yamlData file.2
  let fm := parsed.1.getD {}
  let body := parsed.2
  let description := fm.description.getD ""
  let contentHashValue := env.hash (title ++ "\n" ++ description ++ "\n" ++ body)
  if !force ∧ mapGet existingHashes title = some contentHashValue then
    (acc.1, acc.2.1 + 1, acc.2.2)
  else
    (acc.1 + 1, acc.2.1,
      indexNote env acc.2.2 title fm body linkGraph communities totalCommunities)

/-- buildIndex from engine.ts, returning the statistics and the table
contents after the run; the per-note loop body is buildIndexStep. -/
def buildIndex (env : Env) (db : List (String × StoredVectors)) (force : Bool) :
    IndexStats × List (String × StoredVectors) :=
  let linkGraph := buildGraph env.notes
  let graphMetrics := computeGraphMetrics env.pagerankLib env.louvainLib
    env.betweennessLib linkGraph none
  let totalCommunities := graphMetrics.communityStats.length
  let existingHashes := db.map (fun e => (e.1, e.2.contentHash))
  let res := env.notes.foldl
    (buildIndexStep env force existingHashes linkGraph graphMetrics.communities
      totalCommunities)
    (0, 0, db)
  ({ indexed := res.1, skipped := res.2.1, total := env.notes.length }, res.2.2)

/-! ## Composite search (engine.ts, searchComposite) -/

/-- buildQueryTypeVec from engine.ts. -/
def buildQueryTypeVec (intent : QueryIntent) : List ℚ :=
  match intent with
  | .decision => [0, 1, 0, 0, 0, 0]
  | .procedural => [0, 0, 7/10, 3/10, 0, 0]
  | .episodic => [3/10, 0, 4/10, 3/10, 0, 0]
  | .semantic => [3/10, 0, 3/10, 4/10, 0, 0]

/-- searchComposite from engine.ts. -/
def searchComposite (env : Env) (queryText : String) (intent : ClassifiedQuery)
    (storedVectors : List (String × StoredVectors)) (graphMetrics : GraphMetrics)
    (vitalityScores : List (String × ℚ)) (limit : Nat) (cfg : EngineConfig) :
    List ScoredNote :=
  let queryVec := env.embed queryText
  let sw := intent.spaceWeights
  let splitW := intent.splitWeights
  let bins := cfg.piecewise_bins
  let queryTemporalVec := encodePiecewiseLinear 1 bins
  let queryVitalityVec := encodePiecewiseLinear 1 bins
  let importanceTarget : ℚ :=
    if intent.intent = .procedural ∨ intent.intent = .decision then 8/10 else 1/2
  let queryImportanceVec := encodePiecewiseLinear importanceTarget bins
  let maxPR := graphMetrics.pagerank.foldl (fun m e => if e.2 > m then e.2 else m) 0
  let maxPR := if maxPR = 0 then 1 else maxPR
  let results := storedVectors.map (fun e =>
    let title := e.1
    let vectors := e.2
    let titleSim := cosine env.sqrtQ queryVec vectors.titleVec
    let descSim := cosine env.sqrtQ queryVec vectors.descVec
    let bodySim := cosine env.sqrtQ queryVec vectors.bodyVec
    let textScore := splitW.title * titleSim + splitW.description * descSim +
      splitW.body * bodySim
    let queryTypeVec := buildQueryTypeVec intent.intent
    let typeScore := cosine env.sqrtQ queryTypeVec vectors.typeVec
    let communityScore : ℚ := if vectorNorm env.sqrtQ vectors.communityVec > 0 then 1/2 else 0
    let daysSinceIndex := max 0 ((env.nowMs - env.getTime vectors.indexedAt) / 86400000)
    let recency := env.expQ (-(daysSinceIndex / 30))
    let temporalVec := encodePiecewiseLinear recency bins
    let temporalScore := cosine env.sqrtQ queryTemporalVec temporalVec
    let vitalityVal := (mapGet vitalityScores title).getD (1/2)
    let vitalityVec := encodePiecewiseLinear vitalityVal bins
    let vitalityScore := cosine env.sqrtQ queryVitalityVec vitalityVec
    let pr := (mapGet graphMetrics.pagerank title).getD 0
    let normalizedPR := pr / maxPR
    let importanceVec := encodePiecewiseLinear normalizedPR bins
    let importanceScore := cosine env.sqrtQ queryImportanceVec importanceVec
    let finalScore := sw.text * textScore + sw.temporal * temporalScore +
      sw.vitality * vitalityScore + sw.importance * importanceScore +
      sw.type * typeScore + sw.community * communityScore
    ({ title := title
       score := finalScore
       signals := { composite := some finalScore }
       spaces := some
         { text := textScore, temporal := temporalScore, vitality := vitalityScore,
           importance := importanceScore, type := typeScore,
           community := communityScore } } : ScoredNote))
  jsSlice (List.insertionSort (fun a b : ScoredNote => b.score ≤ a.score) results) 0 limit

/-! ## The ranked-query pipeline (src/cli/search.ts, runQueryRanked) -/

/-- listNoteTitles: the markdown base names of the corpus. -/
def allTitlesOf (env : Env) : List String := env.notes.map (fun n => n.1)

/-- buildNoteIndex helper of search.ts. -/
def buildNoteIndex (env : Env) (titles : List String) : NoteIndex :=
  { frontmatter := titles.foldl
      (fun fmap title =>
        match mapGet env.notes title with
        | none => fmap
        | some content =>
          match (parseFrontmatter env.yamlData content).1 with
          | some data => fmap ++ [(title, data)]
          | none => fmap)
      [] }

/-- computeAllVitality helper of search.ts. -/
def computeAllVitality (env : Env) (titles : List String) (linkGraph : LinkGraph)
    (bridges : List String) : List (String × ℚ) :=
  titles.map (fun title =>
    let parsedData :=
      match mapGet env.notes title with
      | none => none
      | some content => (parseFrontmatter env.yamlData content).1
    let accessCount := (parsedData.bind (fun d => d.access_count)).getD 0
    let created := (parsedData.bind (fun d => d.created)).getD env.nowIso
    let inDegree := ((mapGet linkGraph.incoming title).getD []).length
    (title, computeVitalityFull env.expQ env.logQ env.getTime env.nowMs
      { accessCount := accessCount
        created := created
        noteTitle := title
        inDegree := (inDegree : ℚ)
        bridges := bridges
        metabolicRate := (env.config.vitality.metabolic_rates_notes).getD 1
        actrDecay := (env.config.vitality.actr_decay).getD (1/2)
        accessSaturationK := (env.config.vitality.access_saturation_k).getD 10
        bridgeFloor := env.config.graph.bridge_vitality_floor }))

/-- The BM25 documents of buildBM25IndexFromVault. -/
def bmDocsOf (env : Env) : List BMDoc :=
  env.notes.map (fun file =>
    let parsed := parseFrontmatter env.yamlData file.2
    { title := file.1
      description := (parsed.1.bind (fun d => d.description)).getD ""
      body := parsed.2 })

/-- Steps 6-7 of runQueryRanked: ensure the embedding index exists (build when
the database file is missing), re-build when the table is empty, and load the
stored vectors. -/
def pipelineStored (env : Env) : List (String × StoredVectors) :=
  let db1 := match env.db with
    | some rows => rows
    | none => (buildIndex env [] false).2
  if db1.length = 0 then (buildIndex env db1 false).2 else db1

/-- The warnings accumulated by the cold-start handling of runQueryRanked. -/
def pipelineWarnings (env : Env) : List String :=
  let db1 := match env.db with
    | some rows => rows
    | none => (buildIndex env [] false).2
  (match env.db with
   | none => ["Embedding index not found — building now (this may take a moment)"]
   | some _ => []) ++
  (if db1.length = 0 then ["Embedding index is empty — building now"] else [])

/-- Steps 8-10 of runQueryRanked: the three signals. -/
def pipelineSignals (env : Env) (query : String) (limit : Option Nat) : SignalResults :=
  let config := env.config
  let resultLimit := limit.getD config.retrieval.default_limit
  let candidateLimit := resultLimit * config.retrieval.candidate_multiplier
  let linkGraph := buildGraph env.notes
  let allTitles := allTitlesOf env
  let noteIndex := buildNoteIndex env allTitles
  let graphMetrics := computeGraphMetrics env.pagerankLib env.louvainLib
    env.betweennessLib linkGraph (some noteIndex)
  let vitalityScores := computeAllVitality env allTitles linkGraph graphMetrics.bridges
  let classified := classifyIntent query allTitles
  let storedVectors := pipelineStored env
  let compositeResults := searchComposite env query classified storedVectors
    graphMetrics vitalityScores candidateLimit config.engine
  let bm25Index := buildBM25Index (bmDocsOf env) config.bm25
  let keywordResults := searchBM25 env.logQ query bm25Index config.bm25 candidateLimit
  let gGraph := buildGraphologyGraph linkGraph
  let pprScores := personalizedPageRank gGraph classified.entities
    config.graph.pagerank_alpha 20
  let graphResults := jsSlice
    (List.insertionSort (fun a b : ScoredNote => b.score ≤ a.score)
      (pprScores.map (fun e =>
        ({ title := e.1, score := e.2, signals := { graph := some e.2 } } : ScoredNote))))
    0 candidateLimit
  { composite := compositeResults, keyword := keywordResults, graph := graphResults }

/-- Step 11: score-weighted RRF fusion of the three signals. -/
def pipelineFused (env : Env) (query : String) (limit : Option Nat) : List ScoredNote :=
  fuseScoreWeightedRRF (pipelineSignals env query limit) env.config.retrieval

/-- Step 12a: trim to the result limit. -/
def pipelineTrimmed (env : Env) (query : String) (limit : Option Nat) : List ScoredNote :=
  jsSlice (pipelineFused env query limit) 0
    ((limit.getD env.config.retrieval.default_limit : Nat) : Int)

/-- Step 12b: exploration injection over the trimmed list. -/
def pipelineServed (env : Env) (query : String) (limit : Option Nat) : List ScoredNote :=
  injectExploration (pipelineTrimmed env query limit) (allTitlesOf env)
    env.config.retrieval.exploration_budget env.rand

/-- The data part of a search response. -/
structure SearchData where
  query : String
  intent : String
  results : List ScoredNote
  count : Nat
deriving DecidableEq

/-- SearchResult of search.ts. -/
structure SearchResult where
  success : Bool
  data : SearchData
  warnings : List String
deriving DecidableEq

/-- runQueryRanked from search.ts.  The await of logAccess (step 13) has no
surrounding try, so a rejected append propagates and the query fails; this is
the match on env.logAppend. -/
def runQueryRanked (env : Env) (query : String) (limit : Option Nat) :
    Except String SearchResult :=
  let classified := classifyIntent query (allTitlesOf env)
  let withExploration := pipelineServed env query limit
  let event : AccessEvent :=
    { timestamp := env.nowIso
      query := query
      intent := classified.intent.toStr
      results := withExploration.enum.map (fun p =>
        { title := p.2.title, rank := p.1, score := p.2.score, propensity := 0,
          wasExploration := isExplorationFlagged p.2 }) }
  match env.logAppend event with
  | .error e => .error e
  | .ok _ => .ok
    { success := true
      data :=
        { query := query
          intent := classified.intent.toStr
          results := withExploration
          count := withExploration.length }
      warnings := pipelineWarnings env }

/-! ## Concrete vault states used to instantiate the theorems -/

deriving instance DecidableEq for Except

/-- The documented default configuration (config.ts defaults). -/
def defaultConfig : OriConfig :=
  { engine := { piecewise_bins := 8, community_dims := 16 }
    retrieval := { default_limit := 10, candidate_multiplier := 5, rrf_k := 60,
                   signal_weights := { composite := 2, keyword := 1, graph := 3/2 },
                   exploration_budget := 1/10 }
    bm25 := { k1 := 12/10, b := 3/4, title_boost := 3, description_boost := 2 }
    graph := { pagerank_alpha := 85/100, bridge_vitality_floor := 1/2 }
    vitality := { metabolic_rates_notes := none, actr_decay := none,
                  access_saturation_k := none } }

/-- A stored embedding row with one-dimensional vectors. -/
def trivialRow : StoredVectors :=
  { titleVec := [1], descVec := [1], bodyVec := [1], typeVec := encodeType "",
    communityVec := [0], contentHash := "h", indexedAt := "now" }

/-- A concrete environment: empty corpus, missing database, default
configuration, simple concrete choices for every external primitive. -/
def baseEnv : Env :=
  { embed := fun _ => [1], sqrtQ := fun _ => 1, expQ := fun _ => 1, logQ := fun _ => 0,
    sinQ := fun _ => 0, cosQ := fun _ => 1, hash := fun s => s, getTime := fun _ => 0,
    nowMs := 0, nowIso := "now", rand := fun _ => 0,
    pagerankLib := fun g _ => g.nodes.map (fun n => (n, 1)),
    louvainLib := fun g => g.nodes.map (fun n => (n, 0)),
    betweennessLib := fun g => g.nodes.map (fun n => (n, 0)),
    yamlData := fun _ => none, notes := [], db := none, config := defaultConfig,
    logAppend := fun _ => .ok () }

/-- One note, already indexed. -/
def env1 : Env := { baseEnv with notes := [("a", "")], db := some [("a", trivialRow)] }

/-- Two notes, both indexed, exploration budget one half. -/
def env2 : Env := { baseEnv with
  notes := [("a", ""), ("b", "")]
  db := some [("a", trivialRow), ("b", trivialRow)]
  config := { defaultConfig with
    retrieval := { defaultConfig.retrieval with exploration_budget := 1/2 } } }

/-- A bare scored note used to instantiate theorems on concrete inputs. -/
def plainNote (t : String) : ScoredNote := { title := t, score := 0, signals := {} }

/-- Concrete descending-score signal lists instantiating the fusion theorems. -/
def c9notes1 : List ScoredNote :=
  [{ title := "a", score := 2, signals := {} }, { title := "b", score := 1, signals := {} }]

def c9notes2 : List ScoredNote :=
  [{ title := "a", score := 3, signals := {} }, { title := "b", score := 0, signals := {} }]

def c9notes3 : List ScoredNote :=
  [{ title := "a", score := 1, signals := {} }, { title := "b", score := 1, signals := {} }]

def c9graph : List ScoredNote := [{ title := "c", score := 5, signals := {} }]

def c9cfg0 : RetrievalConfig :=
  { defaultConfig.retrieval with signal_weights := { composite := 2, keyword := 1, graph := 0 } }

/-- The content hash buildIndex computes for one note file (hashContent on
title, frontmatter description and body). -/
def noteHash (env : Env) (file : String × String) : String :=
  let parsed := parseFrontmatter env.yamlData file.2
  env.hash (file.1 ++ "\n" ++ ((parsed.1.getD {}).description.getD "") ++ "\n" ++
    parsed.2)

/-- The existingHashes view of the stored rows: title to contentHash. -/
def hashesOf (db : List (String × StoredVectors)) : List (String × String) :=
  db.map (fun e => (e.1, e.2.contentHash))

/-! # Theorems

First a layer of general lemmas about the JavaScript-semantics helpers, then
one theorem per claim (with its counterexample and witness where required). -/

theorem jsSliceIdx_le (len : Nat) (i : Int) : jsSliceIdx len i ≤ len := by
  unfold jsSliceIdx; split <;> omega

theorem jsSliceIdx_of_nonneg (len : Nat) (i : Int) (h0 : 0 ≤ i) :
    jsSliceIdx len i = min i.toNat len := by
  unfold jsSliceIdx; split <;> omega

theorem length_jsSlice {α : Type} (l : List α) (s e : Int) :
    (jsSlice l s e).length = jsSliceIdx l.length e - jsSliceIdx l.length s := by
  unfold jsSlice
  simp only [List.length_take, List.length_drop]
  have h1 := jsSliceIdx_le l.length s
  have h2 := jsSliceIdx_le l.length e
  omega

theorem jsSlice_zero_nonneg {α : Type} (l : List α) (e : Int) (he : 0 ≤ e) :
    jsSlice l 0 e = l.take e.toNat := by
  unfold jsSlice
  rw [jsSliceIdx_of_nonneg _ _ le_rfl, jsSliceIdx_of_nonneg _ _ he]
  simp only [Int.toNat_zero, Nat.zero_min, List.drop_zero, Nat.sub_zero]
  rcases le_total e.toNat l.length with h | h
  · rw [min_eq_left h]
  · rw [min_eq_right h, List.take_length, List.take_of_length_le h]

theorem mem_jsSlice {α : Type} {x : α} {l : List α} {s e : Int} :
    x ∈ jsSlice l s e → x ∈ l := by
  unfold jsSlice
  intro h
  exact List.mem_of_mem_drop (List.mem_of_mem_take h)

theorem length_swapL {α : Type} (l : List α) (i j : Nat) :
    (swapL l i j).length = l.length := by
  unfold swapL; split <;> simp

theorem mem_of_mem_swapL {α : Type} {x : α} {l : List α} {i j : Nat}
    (h : x ∈ swapL l i j) : x ∈ l := by
  unfold swapL at h
  split at h
  case _ a b ha hb =>
    rcases List.mem_or_eq_of_mem_set h with h2 | h2
    · rcases List.mem_or_eq_of_mem_set h2 with h3 | h3
      · exact h3
      · rw [h3]; exact List.get?_mem hb
    · rw [h2]; exact List.get?_mem ha
  case _ => exact h

theorem length_fyLoop {α : Type} (rand : Nat → Nat) (l : List α) (n : Nat) :
    (fyLoop rand l n).length = l.length := by
  induction n generalizing l with
  | zero => rfl
  | succ i ih => rw [fyLoop, ih, length_swapL]

theorem mem_of_mem_fyLoop {α : Type} {rand : Nat → Nat} {x : α} {l : List α} {n : Nat}
    (h : x ∈ fyLoop rand l n) : x ∈ l := by
  induction n generalizing l with
  | zero => exact h
  | succ i ih => exact mem_of_mem_swapL (ih h)

theorem length_fisherYates {α : Type} (rand : Nat → Nat) (l : List α) :
    (fisherYates rand l).length = l.length := length_fyLoop rand l (l.length - 1)

theorem mem_of_mem_fisherYates {α : Type} {rand : Nat → Nat} {x : α} {l : List α}
    (h : x ∈ fisherYates rand l) : x ∈ l := mem_of_mem_fyLoop h

theorem encodePiecewiseLinear_zero (bins : Nat) (hb : 1 ≤ bins) :
    encodePiecewiseLinear 0 bins = List.replicate bins 0 := by
  simp only [encodePiecewiseLinear]
  norm_num
  rw [List.eq_replicate_iff]
  refine ⟨by simp, ?_⟩
  intro b hmem
  simp only [List.mem_map, List.mem_range] at hmem
  obtain ⟨i, _, hi⟩ := hmem
  rw [← hi]
  have h1 : ¬((i:Int) < 0 ∧ (i:Int) < (bins:Int) - 1) := by omega
  rw [if_neg h1]
  split_ifs <;> norm_num <;> omega

theorem encodePiecewiseLinear_pairwise (value : ℚ) (bins : Nat) :
    List.Pairwise (fun a b => b ≤ a) (encodePiecewiseLinear value bins) := by
  unfold encodePiecewiseLinear
  set v := max 0 (min 1 value) with hv
  have hv0 : (0:ℚ) ≤ v := le_max_left _ _
  have hv1 : v ≤ 1 := max_le (by norm_num) (min_le_left _ _)
  by_cases hge : v ≥ 1
  · simp only [hge, if_true]
    rw [List.pairwise_map]
    exact (List.pairwise_lt_range bins).imp (fun _ => le_refl 1)
  · simp only [hge, if_false]
    rw [List.pairwise_map]
    set scaled := v * bins with hs
    set bi : Int := min ⌊scaled⌋ ((bins : Int) - 1) with hbi
    have hfz : (0:ℚ) ≤ scaled - bi := by
      have h1 : ((bi : ℚ)) ≤ ((⌊scaled⌋ : Int) : ℚ) := by exact_mod_cast min_le_left _ _
      have h2 : (((⌊scaled⌋ : Int)) : ℚ) ≤ scaled := Int.floor_le scaled
      linarith
    have hscaled_le : scaled ≤ (bins : ℚ) := by
      have h3 : v * (bins : ℚ) ≤ 1 * (bins : ℚ) :=
        mul_le_mul_of_nonneg_right hv1 (by positivity)
      rw [hs]; linarith
    have hfo : scaled - bi ≤ 1 := by
      rcases le_or_lt ⌊scaled⌋ ((bins : Int) - 1) with h | h
      · have hbe : bi = ⌊scaled⌋ := min_eq_left h
        rw [hbe]
        have := Int.lt_floor_add_one scaled
        have hc : ((⌊scaled⌋ : Int) : ℚ) = (⌊scaled⌋ : ℚ) := rfl
        linarith
      · have hbe : bi = (bins : Int) - 1 := min_eq_right (le_of_lt h)
        rw [hbe]
        push_cast
        linarith
    apply (List.pairwise_lt_range bins).imp
    intro i j hij
    dsimp only
    split_ifs with h1 h2 h3 h4 h5 <;> linarith

/-- C8 counterexample: at v = 1/2, B = 2 the encoded vector is [1, 0], whose
adjacent bins violate the claimed non-decreasing order (the encoding is in
fact non-increasing across bins). -/
theorem c8_counterexample :
    encodePiecewiseLinear (1/2) 2 = [1, 0] ∧ ¬ ((1 : ℚ) ≤ 0) :=
  ⟨by with_unfolding_all decide, by norm_num⟩

/-- C8 (amended): for every v in the unit interval and bin count B at least 1,
the piecewise-linear encoding of v is non-increasing across bins (each bin's
entry is at least the next bin's entry), and the encoding of v = 0 is the zero
vector. -/
theorem c8_piecewise_encoding_amended (value : ℚ) (bins : Nat)
    (_hv0 : 0 ≤ value) (_hv1 : value ≤ 1) (hb : 1 ≤ bins) :
    List.Pairwise (fun a b => b ≤ a) (encodePiecewiseLinear value bins) ∧
    encodePiecewiseLinear 0 bins = List.replicate bins 0 :=
  ⟨encodePiecewiseLinear_pairwise value bins, encodePiecewiseLinear_zero bins hb⟩

/-- Witness for C8 at v = 1/2, B = 2. -/
theorem c8_witness :
    (0 ≤ (1/2 : ℚ) ∧ (1/2 : ℚ) ≤ 1 ∧ 1 ≤ 2) ∧
    (List.Pairwise (fun a b => b ≤ a) (encodePiecewiseLinear (1/2) 2) ∧
     encodePiecewiseLinear 0 2 = List.replicate 2 0) :=
  ⟨⟨by norm_num, by norm_num, by norm_num⟩,
   c8_piecewise_encoding_amended (1/2) 2 (by norm_num) (by norm_num) (by norm_num)⟩

/-- C10 counterexample: with budget 2 (and enough candidates) the output of
injectExploration has 6 entries for a 3-entry input, so the length is not
preserved for every budget. -/
theorem c10_counterexample :
    (injectExploration [plainNote "a", plainNote "b", plainNote "c"]
      ["d", "e", "f", "g", "h", "i"] 2 (fun _ => 0)).length = 6 ∧ (6 : Nat) ≠ 3 :=
  ⟨by with_unfolding_all decide, by norm_num⟩

/-- C10 (amended): injectExploration is pure, so it never mutates its input;
for budget at most 0 it returns the input unchanged, and for budgets in (0, 1]
on a non-empty input it preserves the length and keeps the first
length - max(1, floor(length * budget)) input entries unchanged in order.
For budgets above 1 the length claim fails (see the counterexample). -/
theorem c10_injectExploration_frame_amended (results : List ScoredNote)
    (allNotes : List String) (budget : ℚ) (rand : Nat → Nat) :
    (budget ≤ 0 → injectExploration results allNotes budget rand = results) ∧
    (0 < budget → budget ≤ 1 → results ≠ [] →
      (injectExploration results allNotes budget rand).length = results.length ∧
      (injectExploration results allNotes budget rand).take
          (results.length - (max 1 ⌊(results.length : ℚ) * budget⌋).toNat) =
        results.take (results.length - (max 1 ⌊(results.length : ℚ) * budget⌋).toNat)) := by
  constructor
  · intro hb
    unfold injectExploration
    rw [if_pos (Or.inl hb)]
  · intro hb0 hb1 hne
    have hlen : results.length ≠ 0 := by
      simpa [List.length_eq_zero] using hne
    unfold injectExploration
    rw [if_neg (by push_neg; exact ⟨by linarith, hlen⟩)]
    simp only []
    set n := results.length with hn
    set rc : Int := max 1 ⌊(n : ℚ) * budget⌋ with hrc
    have hrc1 : 1 ≤ rc := le_max_left _ _
    have hrcn : rc ≤ (n : Int) := by
      have hnb : (n : ℚ) * budget ≤ (n : ℚ) := by
        calc (n : ℚ) * budget ≤ (n : ℚ) * 1 :=
              mul_le_mul_of_nonneg_left hb1 (by positivity)
          _ = (n : ℚ) := mul_one _
      have hf : ⌊(n : ℚ) * budget⌋ ≤ (n : Int) := by
        calc ⌊(n : ℚ) * budget⌋ ≤ ⌊(n : ℚ)⌋ := Int.floor_le_floor hnb
          _ = (n : Int) := Int.floor_natCast n
      rw [hrc]
      omega
    set cand := allNotes.filter (fun m => !(results.map (fun r => r.title)).contains m)
      with hcand
    set shuf := fisherYates rand cand with hshufd
    have hsl : shuf.length = cand.length := length_fisherYates rand cand
    set picks := jsSlice shuf 0 rc with hpks
    have hp : picks.length = min rc.toNat cand.length := by
      rw [hpks, length_jsSlice, hsl,
        jsSliceIdx_of_nonneg _ _ (by omega : (0:Int) ≤ rc),
        jsSliceIdx_of_nonneg _ _ le_rfl]
      omega
    have hkept : jsSlice results 0 ((n : Int) - rc) = results.take (n - rc.toNat) := by
      rw [jsSlice_zero_nonneg _ _ (by omega : (0:Int) ≤ (n : Int) - rc)]
      congr 1
      omega
    have hkeptlen : (results.take (n - rc.toNat)).length = n - rc.toNat := by
      rw [List.length_take]
      omega
    constructor
    · split
      next hdef =>
        rw [List.length_append, List.length_append, hkept, hkeptlen, List.length_map,
          length_jsSlice results,
          jsSliceIdx_of_nonneg _ _ (by omega : (0:Int) ≤ (n:Int) - rc + (rc - picks.length)),
          jsSliceIdx_of_nonneg _ _ (by omega : (0:Int) ≤ (n:Int) - rc)]
        omega
      next hdef =>
        rw [List.length_append, hkept, hkeptlen, List.length_map]
        omega
    · have htake : ∀ suffix : List ScoredNote,
          (results.take (n - rc.toNat) ++ suffix).take (n - rc.toNat) =
            results.take (n - rc.toNat) := by
        intro suffix
        have h := List.take_left (results.take (n - rc.toNat)) suffix
        rwa [hkeptlen] at h
      split
      next =>
        rw [hkept, List.append_assoc, htake]
      next =>
        rw [hkept, htake]

/-- Witness for C10: three input entries, budget 1/2, enough candidates. -/
theorem c10_witness :
    (0 < (1/2 : ℚ)) ∧ ((1/2 : ℚ) ≤ 1) ∧
    (([plainNote "a", plainNote "b", plainNote "c"] : List ScoredNote) ≠ []) ∧
    ((injectExploration [plainNote "a", plainNote "b", plainNote "c"]
        ["d", "e"] (1/2) (fun _ => 0)).length = 3 ∧
      (injectExploration [plainNote "a", plainNote "b", plainNote "c"]
          ["d", "e"] (1/2) (fun _ => 0)).take
          (3 - (max 1 ⌊((3 : Nat) : ℚ) * (1/2)⌋).toNat) =
        ([plainNote "a", plainNote "b", plainNote "c"] : List ScoredNote).take
          (3 - (max 1 ⌊((3 : Nat) : ℚ) * (1/2)⌋).toNat)) :=
  ⟨by norm_num, by norm_num, by with_unfolding_all decide,
   (c10_injectExploration_frame_amended
      [plainNote "a", plainNote "b", plainNote "c"] ["d", "e"] (1/2) (fun _ => 0)).2
     (by norm_num) (by norm_num) (by with_unfolding_all decide)⟩

/-- C5 counterexample: the query "when did the process" matches exactly one
episodic pattern and one procedural pattern, a two-way tie for the most
matches, yet the classifier returns episodic rather than the claimed
semantic. -/
theorem c5_counterexample :
    intentMatchCount episodicPatterns "when did the process" = 1 ∧
    intentMatchCount proceduralPatterns "when did the process" = 1 ∧
    intentMatchCount decisionPatterns "when did the process" = 0 ∧
    (classifyIntent "when did the process" []).intent = QueryIntent.episodic ∧
    QueryIntent.episodic ≠ QueryIntent.semantic := by
  refine ⟨?_, ?_, ?_, ?_, ?_⟩ <;> with_unfolding_all decide

/-- C5 (amended): the classifier scans the rule table in its fixed order
(episodic, procedural, decision), keeping the first intent whose match count
strictly exceeds the best so far; hence the returned intent is the earliest
intent in that order among those with the maximal match count when some
pattern matches, and semantic when none does — a tie between two listed
intents resolves to the earlier of them, not to semantic.  The confidence is
1.0 for at least 2 matches, 0.7 for exactly 1, and 0.5 otherwise. -/
theorem c5_intent_classifier_amended (query : String) (noteIndex : List String) :
    ((classifyIntent query noteIndex).intent =
      (if intentMatchCount decisionPatterns query >
          max (intentMatchCount episodicPatterns query)
            (intentMatchCount proceduralPatterns query)
       then QueryIntent.decision
       else if intentMatchCount proceduralPatterns query >
          intentMatchCount episodicPatterns query
       then QueryIntent.procedural
       else if intentMatchCount episodicPatterns query > 0 then QueryIntent.episodic
       else QueryIntent.semantic)) ∧
    ((classifyIntent query noteIndex).confidence =
      (if max (intentMatchCount episodicPatterns query)
          (max (intentMatchCount proceduralPatterns query)
            (intentMatchCount decisionPatterns query)) ≥ 2
       then 1
       else if max (intentMatchCount episodicPatterns query)
          (max (intentMatchCount proceduralPatterns query)
            (intentMatchCount decisionPatterns query)) = 1
       then 7/10 else 1/2)) := by
  simp only [classifyIntent, INTENT_PATTERNS, List.foldl]
  set ce := intentMatchCount episodicPatterns query with hcedef
  set cp := intentMatchCount proceduralPatterns query with hcpdef
  set cd := intentMatchCount decisionPatterns query with hcddef
  constructor
  · split_ifs <;> (try dsimp only at *) <;> first | rfl | omega
  · split_ifs <;> (try dsimp only at *) <;> first | rfl | omega

theorem mapGet_mapSet_self {κ β : Type} [DecidableEq κ] (m : List (κ × β)) (k : κ) (v : β) :
    mapGet (mapSet m k v) k = some v := by
  induction m with
  | nil => simp [mapGet, mapSet]
  | cons e rest ih =>
    by_cases h : e.1 = k
    · simp [mapGet, mapSet, h]
    · simp [mapGet, mapSet, h, ih]

theorem mapGet_mapSet_ne {κ β : Type} [DecidableEq κ] (m : List (κ × β)) (k k2 : κ) (v : β)
    (h : k2 ≠ k) : mapGet (mapSet m k v) k2 = mapGet m k2 := by
  induction m with
  | nil => simp [mapGet, mapSet, Ne.symm h]
  | cons e rest ih =>
    rcases e with ⟨a, b⟩
    by_cases h1 : a = k
    · subst h1
      have h2 : a ≠ k2 := Ne.symm h
      simp [mapGet, mapSet, h2]
    · by_cases h2 : a = k2
      · simp [mapGet, mapSet, h1, h2, h, ih]
      · simp [mapGet, mapSet, h1, h2, ih]

theorem mapSet_of_mapGet_none {κ β : Type} [DecidableEq κ] (m : List (κ × β)) (k : κ) (v : β)
    (h : mapGet m k = none) : mapSet m k v = m ++ [(k, v)] := by
  induction m with
  | nil => simp [mapSet]
  | cons e rest ih =>
    by_cases h1 : e.1 = k
    · rw [mapGet] at h
      simp [h1] at h
    · rw [mapGet] at h
      simp only [h1, if_false] at h
      simp [mapSet, h1, ih h]

theorem mapGet_append_left {κ β : Type} [DecidableEq κ] (m1 m2 : List (κ × β)) (k : κ)
    (h : mapGet m1 k = none) : mapGet (m1 ++ m2) k = mapGet m2 k := by
  induction m1 with
  | nil => simp
  | cons e rest ih =>
    rw [mapGet] at h
    by_cases h1 : e.1 = k
    · simp [h1] at h
    · simp only [h1, if_false] at h
      rw [List.cons_append, mapGet, if_neg h1]
      exact ih h

theorem mem_setAdd {κ : Type} [DecidableEq κ] (s : List κ) (x y : κ) :
    y ∈ setAdd s x ↔ y ∈ s ∨ y = x := by
  unfold setAdd
  split
  · constructor
    · exact Or.inl
    · rintro (h | rfl)
      · exact h
      · assumption
  · simp

theorem nodup_setAdd {κ : Type} [DecidableEq κ] (s : List κ) (x : κ)
    (h : s.Nodup) : (setAdd s x).Nodup := by
  unfold setAdd
  split
  · exact h
  next hx =>
    rw [List.nodup_append]
    refine ⟨h, List.nodup_singleton x, ?_⟩
    intro a ha hb
    rw [List.mem_singleton] at hb
    subst hb
    exact hx ha

theorem collectLinks_nodup (content : String) : (collectLinks content).Nodup := by
  unfold collectLinks
  generalize extractLinkTargets content.data = raws
  have haux : ∀ (l : List String) (acc : List String), acc.Nodup →
      (l.foldl (fun links raw =>
        let target := trimStr raw
        if target.length > 0 then setAdd links target else links) acc).Nodup := by
    intro l
    induction l with
    | nil => intro acc h; exact h
    | cons r rest ih =>
      intro acc h
      rw [List.foldl_cons]
      dsimp only
      split
      · exact ih _ (nodup_setAdd _ _ h)
      · exact ih _ h
  exact haux raws [] List.nodup_nil

theorem mapGet_append_one_ne {κ β : Type} [DecidableEq κ] (m : List (κ × β)) (k t : κ)
    (v : β) (h : t ≠ k) : mapGet (m ++ [(k, v)]) t = mapGet m t := by
  induction m with
  | nil => simp [mapGet, Ne.symm h]
  | cons e rest ih =>
    rw [List.cons_append, mapGet, mapGet]
    split
    · rfl
    · exact ih

theorem addIncoming_get (inc : List (String × List String)) (target source t : String) :
    (mapGet (addIncoming inc target source) t).getD [] =
      if t = target then setAdd ((mapGet inc target).getD []) source
      else (mapGet inc t).getD [] := by
  unfold addIncoming
  by_cases ht : t = target
  · subst ht
    rw [if_pos rfl]
    cases hg : mapGet inc t with
    | none =>
      rw [mapGet_append_left _ _ _ hg]
      simp [mapGet, hg, setAdd]
    | some s =>
      simp [mapGet_mapSet_self]
  · rw [if_neg ht]
    cases hg : mapGet inc target with
    | none => rw [mapGet_append_one_ne _ _ _ _ ht]
    | some s => simp [mapGet_mapSet_ne _ _ _ _ ht]

theorem addIncoming_get_none (inc : List (String × List String)) (target source t : String) :
    mapGet (addIncoming inc target source) t = none ↔
      mapGet inc t = none ∧ t ≠ target := by
  unfold addIncoming
  by_cases ht : t = target
  · subst ht
    cases hg : mapGet inc t with
    | none =>
      rw [mapGet_append_left _ _ _ hg]
      simp [mapGet]
    | some s =>
      simp [mapGet_mapSet_self, hg]
  · cases hg : mapGet inc target with
    | none => rw [mapGet_append_one_ne _ _ _ _ ht]; simp [ht]
    | some s => simp [mapGet_mapSet_ne _ _ _ _ ht, ht]

theorem incoming_links_fold (links : List String) (inc : List (String × List String))
    (source : String) (hnd : links.Nodup)
    (hpre : ∀ t ∈ links, source ∉ (mapGet inc t).getD []) :
    ∀ t, (mapGet (links.foldl (fun i target => addIncoming i target source) inc) t).getD []
      = (mapGet inc t).getD [] ++ (if t ∈ links then [source] else []) := by
  induction links generalizing inc with
  | nil => intro t; simp
  | cons tg rest ih =>
    intro t
    rw [List.foldl_cons]
    have hnd2 := (List.nodup_cons.mp hnd).2
    have htg : tg ∉ rest := (List.nodup_cons.mp hnd).1
    have hpre2 : ∀ t2 ∈ rest, source ∉ (mapGet (addIncoming inc tg source) t2).getD [] := by
      intro t2 ht2
      rw [addIncoming_get]
      have : t2 ≠ tg := fun hh => htg (hh ▸ ht2)
      rw [if_neg this]
      exact hpre t2 (List.mem_cons_of_mem _ ht2)
    rw [ih _ hnd2 hpre2]
    rw [addIncoming_get]
    by_cases ht : t = tg
    · subst ht
      rw [if_pos rfl, if_pos (List.mem_cons_self _ _), if_neg htg]
      have hsrc : source ∉ (mapGet inc t).getD [] := hpre t (List.mem_cons_self _ _)
      unfold setAdd
      rw [if_neg hsrc]
      simp
    · rw [if_neg ht]
      by_cases hmem : t ∈ rest
      · rw [if_pos hmem, if_pos (List.mem_cons_of_mem _ hmem)]
      · rw [if_neg hmem, if_neg (by simp [ht, hmem])]

theorem incoming_links_fold_none (links : List String) (inc : List (String × List String))
    (source t : String) :
    mapGet (links.foldl (fun i target => addIncoming i target source) inc) t = none ↔
      mapGet inc t = none ∧ t ∉ links := by
  induction links generalizing inc with
  | nil => simp
  | cons tg rest ih =>
    rw [List.foldl_cons, ih, addIncoming_get_none]
    constructor
    · rintro ⟨⟨h1, h2⟩, h3⟩
      exact ⟨h1, by simp [h2, h3]⟩
    · rintro ⟨h1, h2⟩
      simp only [List.mem_cons, not_or] at h2
      exact ⟨⟨h1, h2.1⟩, h2.2⟩

theorem buildGraph_aux_incoming (corpus : List (String × String)) (g0 : LinkGraph)
    (hnd : (corpus.map (fun n => n.1)).Nodup)
    (hpre : ∀ note ∈ corpus, ∀ t, note.1 ∉ (mapGet g0.incoming t).getD []) :
    ∀ t, (mapGet (corpus.foldl buildGraphStep g0).incoming t).getD [] =
      (mapGet g0.incoming t).getD [] ++
        ((corpus.filter (fun n => t ∈ collectLinks n.2)).map (fun n => n.1)) := by
  induction corpus generalizing g0 with
  | nil => intro t; simp
  | cons note rest ih =>
    intro t
    rw [List.foldl_cons]
    have hnd2 : (rest.map (fun n => n.1)).Nodup := (List.nodup_cons.mp (by simpa using hnd)).2
    have hT : note.1 ∉ rest.map (fun n => n.1) := (List.nodup_cons.mp (by simpa using hnd)).1
    have hstep : ∀ t2, (mapGet (buildGraphStep g0 note).incoming t2).getD [] =
        (mapGet g0.incoming t2).getD [] ++
          (if t2 ∈ collectLinks note.2 then [note.1] else []) := by
      intro t2
      unfold buildGraphStep
      exact incoming_links_fold _ _ _ (collectLinks_nodup _)
        (fun t3 _ => hpre note (List.mem_cons_self _ _) t3) t2
    have hpre2 : ∀ n2 ∈ rest, ∀ t2, n2.1 ∉ (mapGet (buildGraphStep g0 note).incoming t2).getD [] := by
      intro n2 hn2 t2
      rw [hstep t2]
      simp only [List.mem_append]
      rintro (h | h)
      · exact hpre n2 (List.mem_cons_of_mem _ hn2) t2 h
      · split at h
        · rw [List.mem_singleton] at h
          exact hT (h ▸ List.mem_map.mpr ⟨n2, hn2, rfl⟩)
        · cases h
    rw [ih _ hnd2 hpre2 t, hstep t, List.filter_cons]
    split <;> rename_i hmem
    · simp [hmem]
    · simp [hmem]

theorem buildGraph_aux_incoming_none (corpus : List (String × String)) (g0 : LinkGraph)
    (t : String) :
    mapGet (corpus.foldl buildGraphStep g0).incoming t = none ↔
      mapGet g0.incoming t = none ∧ ∀ note ∈ corpus, t ∉ collectLinks note.2 := by
  induction corpus generalizing g0 with
  | nil => simp
  | cons note rest ih =>
    rw [List.foldl_cons, ih]
    unfold buildGraphStep
    rw [incoming_links_fold_none]
    constructor
    · rintro ⟨⟨h1, h2⟩, h3⟩
      refine ⟨h1, ?_⟩
      intro n2 hn2
      rcases List.mem_cons.mp hn2 with rfl | hn2
      · exact h2
      · exact h3 n2 hn2
    · rintro ⟨h1, h2⟩
      exact ⟨⟨h1, h2 note (List.mem_cons_self _ _)⟩,
        fun n2 hn2 => h2 n2 (List.mem_cons_of_mem _ hn2)⟩

theorem buildGraph_aux_outgoing (corpus : List (String × String)) (g0 : LinkGraph)
    (hnd : (corpus.map (fun n => n.1)).Nodup)
    (hpre : ∀ note ∈ corpus, mapGet g0.outgoing note.1 = none) :
    (corpus.foldl buildGraphStep g0).outgoing =
      g0.outgoing ++ corpus.map (fun n => (n.1, collectLinks n.2)) := by
  induction corpus generalizing g0 with
  | nil => simp
  | cons note rest ih =>
    rw [List.foldl_cons]
    have hnd2 : (rest.map (fun n => n.1)).Nodup := (List.nodup_cons.mp (by simpa using hnd)).2
    have hT : note.1 ∉ rest.map (fun n => n.1) := (List.nodup_cons.mp (by simpa using hnd)).1
    have hstep : (buildGraphStep g0 note).outgoing =
        g0.outgoing ++ [(note.1, collectLinks note.2)] := by
      unfold buildGraphStep
      exact mapSet_of_mapGet_none _ _ _ (hpre note (List.mem_cons_self _ _))
    have hpre2 : ∀ n2 ∈ rest, mapGet (buildGraphStep g0 note).outgoing n2.1 = none := by
      intro n2 hn2
      rw [hstep, mapGet_append_one_ne _ _ _ _
        (fun hh : n2.1 = note.1 => hT (hh ▸ List.mem_map.mpr ⟨n2, hn2, rfl⟩))]
      exact hpre n2 (List.mem_cons_of_mem _ hn2)
    rw [ih _ hnd2 hpre2, hstep]
    simp

theorem buildGraph_outgoing (corpus : List (String × String))
    (hnd : (corpus.map (fun n => n.1)).Nodup) :
    (buildGraph corpus).outgoing = corpus.map (fun n => (n.1, collectLinks n.2)) := by
  unfold buildGraph
  rw [buildGraph_aux_outgoing corpus { outgoing := [], incoming := [] } hnd (fun note _ => rfl)]
  rfl

theorem buildGraph_incoming (corpus : List (String × String))
    (hnd : (corpus.map (fun n => n.1)).Nodup) (t : String) :
    (mapGet (buildGraph corpus).incoming t).getD [] =
      (corpus.filter (fun n => t ∈ collectLinks n.2)).map (fun n => n.1) := by
  unfold buildGraph
  rw [buildGraph_aux_incoming corpus { outgoing := [], incoming := [] } hnd (fun note _ t2 => by simp [mapGet]) t]
  simp [mapGet]

theorem buildGraph_incoming_none (corpus : List (String × String)) (t : String) :
    mapGet (buildGraph corpus).incoming t = none ↔
      ∀ note ∈ corpus, t ∉ collectLinks note.2 := by
  unfold buildGraph
  rw [buildGraph_aux_incoming_none]
  simp [mapGet]

theorem mapGet_map_links_of_mem (corpus : List (String × String)) (M c : String)
    (hnd : (corpus.map (fun n => n.1)).Nodup) (hmem : (M, c) ∈ corpus) :
    mapGet (corpus.map (fun n => (n.1, collectLinks n.2))) M = some (collectLinks c) := by
  induction corpus with
  | nil => cases hmem
  | cons note rest ih =>
    rw [List.map_cons, mapGet]
    rcases List.mem_cons.mp hmem with rfl | hmem2
    · rw [if_pos rfl]
    · have hT : note.1 ∉ rest.map (fun n => n.1) := (List.nodup_cons.mp (by simpa using hnd)).1
      have hne : note.1 ≠ M := by
        intro hh
        exact hT (hh ▸ List.mem_map.mpr ⟨(M, c), hmem2, rfl⟩)
      rw [if_neg hne]
      exact ih (List.nodup_cons.mp (by simpa using hnd)).2 hmem2

theorem mapGet_map_links_none (corpus : List (String × String)) (M : String) :
    mapGet (corpus.map (fun n => (n.1, collectLinks n.2))) M = none ↔
      M ∉ corpus.map (fun n => n.1) := by
  induction corpus with
  | nil => simp [mapGet]
  | cons note rest ih =>
    rw [List.map_cons, mapGet]
    by_cases h : note.1 = M
    · simp [h]
    · simp [h, ih, Ne.symm h]

theorem mem_dangling_inner (l allNotes d0 : List String) (x : String) :
    x ∈ l.foldl (fun d target => if allNotes.contains target then d else setAdd d target) d0 ↔
      x ∈ d0 ∨ (x ∈ l ∧ ¬ allNotes.contains x = true) := by
  induction l generalizing d0 with
  | nil => simp
  | cons tg rest ih =>
    rw [List.foldl_cons]
    by_cases h : allNotes.contains tg = true
    · rw [if_pos h, ih]
      constructor
      · rintro (h1 | ⟨h1, h2⟩)
        · exact Or.inl h1
        · exact Or.inr ⟨List.mem_cons_of_mem _ h1, h2⟩
      · rintro (h1 | ⟨h1, h2⟩)
        · exact Or.inl h1
        · rcases List.mem_cons.mp h1 with rfl | h1
          · exact absurd h h2
          · exact Or.inr ⟨h1, h2⟩
    · rw [if_neg h, ih]
      constructor
      · rintro (h1 | ⟨h1, h2⟩)
        · rcases (mem_setAdd _ _ _).mp h1 with h3 | rfl
          · exact Or.inl h3
          · exact Or.inr ⟨List.mem_cons_self _ _, h⟩
        · exact Or.inr ⟨List.mem_cons_of_mem _ h1, h2⟩
      · rintro (h1 | ⟨h1, h2⟩)
        · exact Or.inl ((mem_setAdd _ _ _).mpr (Or.inl h1))
        · rcases List.mem_cons.mp h1 with rfl | h1
          · exact Or.inl ((mem_setAdd _ _ _).mpr (Or.inr rfl))
          · exact Or.inr ⟨h1, h2⟩

theorem mem_dangling_outer (entries : List (String × List String)) (allNotes acc : List String)
    (x : String) :
    x ∈ entries.foldl
      (fun d entry => entry.2.foldl
        (fun d target => if allNotes.contains target then d else setAdd d target) d) acc ↔
      x ∈ acc ∨ ((∃ e ∈ entries, x ∈ e.2) ∧ ¬ allNotes.contains x = true) := by
  induction entries generalizing acc with
  | nil => simp
  | cons e rest ih =>
    rw [List.foldl_cons, ih, mem_dangling_inner]
    constructor
    · rintro ((h1 | ⟨h1, h2⟩) | ⟨⟨e2, he2, hx⟩, h2⟩)
      · exact Or.inl h1
      · exact Or.inr ⟨⟨e, List.mem_cons_self _ _, h1⟩, h2⟩
      · exact Or.inr ⟨⟨e2, List.mem_cons_of_mem _ he2, hx⟩, h2⟩
    · rintro (h1 | ⟨⟨e2, he2, hx⟩, h2⟩)
      · exact Or.inl (Or.inl h1)
      · rcases List.mem_cons.mp he2 with rfl | he2
        · exact Or.inl (Or.inr ⟨hx, h2⟩)
        · exact Or.inr ⟨⟨e2, he2, hx⟩, h2⟩

/-- C6: for every corpus with distinct titles, the built link graph satisfies
the three invariants: incoming[N] is exactly the set of note titles M with N
in outgoing[M]; the orphan list is exactly the note titles whose incoming set
is empty; and the dangling list is exactly the link targets occurring in some
outgoing set that are not titles of existing notes. -/
theorem c6_link_graph_invariants (corpus : List (String × String))
    (hnd : (corpus.map (fun n => n.1)).Nodup) :
    (∀ N M, M ∈ (mapGet (buildGraph corpus).incoming N).getD [] ↔
       (M ∈ corpus.map (fun n => n.1) ∧
        N ∈ (mapGet (buildGraph corpus).outgoing M).getD [])) ∧
    (∀ N, N ∈ findOrphans (buildGraph corpus) (corpus.map (fun n => n.1)) ↔
       (N ∈ corpus.map (fun n => n.1) ∧
        ∀ M, M ∉ (mapGet (buildGraph corpus).incoming N).getD [])) ∧
    (∀ t, t ∈ findDanglingLinks (buildGraph corpus) (corpus.map (fun n => n.1)) ↔
       ((∃ M ∈ corpus.map (fun n => n.1),
           t ∈ (mapGet (buildGraph corpus).outgoing M).getD []) ∧
        t ∉ corpus.map (fun n => n.1))) := by
  have hout : ∀ M c, (M, c) ∈ corpus →
      (mapGet (buildGraph corpus).outgoing M).getD [] = collectLinks c := by
    intro M c hmem
    rw [buildGraph_outgoing corpus hnd, mapGet_map_links_of_mem corpus M c hnd hmem]
    rfl
  have houtn : ∀ M, M ∉ corpus.map (fun n => n.1) →
      (mapGet (buildGraph corpus).outgoing M).getD [] = [] := by
    intro M hM
    rw [buildGraph_outgoing corpus hnd, (mapGet_map_links_none corpus M).mpr hM]
    rfl
  have hmain : ∀ N M, M ∈ (mapGet (buildGraph corpus).incoming N).getD [] ↔
      (M ∈ corpus.map (fun n => n.1) ∧
       N ∈ (mapGet (buildGraph corpus).outgoing M).getD []) := by
    intro N M
    rw [buildGraph_incoming corpus hnd N]
    constructor
    · intro h
      simp only [List.mem_map, List.mem_filter] at h
      obtain ⟨note, ⟨hmem, hlink⟩, rfl⟩ := h
      refine ⟨List.mem_map.mpr ⟨note, hmem, rfl⟩, ?_⟩
      rw [hout note.1 note.2 hmem]
      simpa using hlink
    · rintro ⟨hM, hN⟩
      obtain ⟨note, hmem, rfl⟩ := List.mem_map.mp hM
      rw [hout note.1 note.2 hmem] at hN
      refine List.mem_map.mpr ⟨note, List.mem_filter.mpr ⟨hmem, by simpa using hN⟩, rfl⟩
  refine ⟨hmain, ?_, ?_⟩
  · intro N
    unfold findOrphans
    rw [List.mem_filter]
    constructor
    · rintro ⟨h1, h2⟩
      rw [Option.isNone_iff_eq_none] at h2
      refine ⟨h1, ?_⟩
      intro M hM
      rw [h2] at hM
      cases hM
    · rintro ⟨h1, h2⟩
      refine ⟨h1, ?_⟩
      rw [Option.isNone_iff_eq_none, buildGraph_incoming_none]
      intro note hmem hlink
      exact h2 note.1 (by
        rw [buildGraph_incoming corpus hnd N]
        exact List.mem_map.mpr ⟨note, List.mem_filter.mpr ⟨hmem, by simpa using hlink⟩, rfl⟩)
  · intro t
    unfold findDanglingLinks
    rw [List.mem_insertionSort, mem_dangling_outer]
    simp only [List.mem_nil_iff, false_or]
    constructor
    · rintro ⟨⟨e, he, ht⟩, hcon⟩
      rw [buildGraph_outgoing corpus hnd] at he
      obtain ⟨note, hmem, rfl⟩ := List.mem_map.mp he
      refine ⟨⟨note.1, List.mem_map.mpr ⟨note, hmem, rfl⟩, ?_⟩, ?_⟩
      · rw [hout note.1 note.2 hmem]
        simpa using ht
      · intro hmem2
        exact hcon (List.elem_iff.mpr hmem2)
    · rintro ⟨⟨M, hM, ht⟩, hnm⟩
      obtain ⟨note, hmem, rfl⟩ := List.mem_map.mp hM
      refine ⟨⟨(note.1, collectLinks note.2), ?_, ?_⟩, ?_⟩
      · rw [buildGraph_outgoing corpus hnd]
        exact List.mem_map.mpr ⟨note, hmem, rfl⟩
      · rw [hout note.1 note.2 hmem] at ht
        simpa using ht
      · intro hc
        exact hnm (List.elem_iff.mp hc)

/-- Witness for C6: the scenario corpus with a linking to b. -/
theorem c6_witness :
    ((([("a", "see [[b]]"), ("b", "")] : List (String × String)).map
        (fun n => n.1)).Nodup) ∧
    ((∀ N M, M ∈ (mapGet (buildGraph [("a", "see [[b]]"), ("b", "")]).incoming N).getD [] ↔
       (M ∈ ([("a", "see [[b]]"), ("b", "")] : List (String × String)).map (fun n => n.1) ∧
        N ∈ (mapGet (buildGraph [("a", "see [[b]]"), ("b", "")]).outgoing M).getD [])) ∧
    (∀ N, N ∈ findOrphans (buildGraph [("a", "see [[b]]"), ("b", "")])
        (([("a", "see [[b]]"), ("b", "")] : List (String × String)).map (fun n => n.1)) ↔
       (N ∈ ([("a", "see [[b]]"), ("b", "")] : List (String × String)).map (fun n => n.1) ∧
        ∀ M, M ∉ (mapGet (buildGraph [("a", "see [[b]]"), ("b", "")]).incoming N).getD [])) ∧
    (∀ t, t ∈ findDanglingLinks (buildGraph [("a", "see [[b]]"), ("b", "")])
        (([("a", "see [[b]]"), ("b", "")] : List (String × String)).map (fun n => n.1))  ↔
       ((∃ M ∈ ([("a", "see [[b]]"), ("b", "")] : List (String × String)).map (fun n => n.1),
           t ∈ (mapGet (buildGraph [("a", "see [[b]]"), ("b", "")]).outgoing M).getD []) ∧
        t ∉ ([("a", "see [[b]]"), ("b", "")] : List (String × String)).map (fun n => n.1)))) :=
  ⟨by with_unfolding_all decide,
   c6_link_graph_invariants [("a", "see [[b]]"), ("b", "")] (by with_unfolding_all decide)⟩

/-- C7 counterexample: a note whose body links to itself.  The in-degree of
"a" in the built graph is 1, but the number of distinct OTHER notes whose body
contains a link token naming "a" is 0. -/
theorem c7_counterexample :
    ((mapGet (buildGraph [("a", "see [[a]]")]).incoming "a").getD []).length = 1 ∧
    (([("a", "see [[a]]")] : List (String × String)).filter
      (fun note => note.1 ≠ "a" && decide ("a" ∈ collectLinks note.2))).length = 0 ∧
    (1 : Nat) ≠ 0 := by
  refine ⟨?_, ?_, by norm_num⟩ <;> with_unfolding_all decide

/-- C7 (amended): for every corpus with distinct titles and every title N, the
in-degree of N (the size of incoming[N]) equals the number of distinct notes —
including possibly N itself, since self-links are recorded — whose body
contains a link token naming N. -/
theorem c7_in_degree_amended (corpus : List (String × String))
    (hnd : (corpus.map (fun n => n.1)).Nodup) (N : String) :
    ((mapGet (buildGraph corpus).incoming N).getD []).length =
      (corpus.filter (fun note => N ∈ collectLinks note.2)).length := by
  rw [buildGraph_incoming corpus hnd N, List.length_map]

/-- Witness for C7 at the two-note scenario corpus, N = "b". -/
theorem c7_witness :
    ((([("a", "see [[b]]"), ("b", "")] : List (String × String)).map
        (fun n => n.1)).Nodup) ∧
    ((mapGet (buildGraph [("a", "see [[b]]"), ("b", "")]).incoming "b").getD []).length =
      (([("a", "see [[b]]"), ("b", "")] : List (String × String)).filter
        (fun note => "b" ∈ collectLinks note.2)).length :=
  ⟨by with_unfolding_all decide,
   c7_in_degree_amended [("a", "see [[b]]"), ("b", "")] (by with_unfolding_all decide) "b"⟩

theorem orderedInsert_eq_cons {α : Type} (r : α → α → Prop) [DecidableRel r] (x : α)
    (M : List α) (h : ∀ z ∈ M, r x z) : List.orderedInsert r x M = x :: M := by
  cases M with
  | nil => rfl
  | cons y ys =>
    rw [List.orderedInsert, if_pos (h y (List.mem_cons_self _ _))]

theorem filter_orderedInsert {α : Type} (r : α → α → Prop) [DecidableRel r]
    (htr : ∀ a b c, r a b → r b c → r a c)
    (p : α → Bool) (x : α) (L : List α) (hL : L.Pairwise r) :
    (List.orderedInsert r x L).filter p =
      if p x then List.orderedInsert r x (L.filter p) else L.filter p := by
  induction L with
  | nil =>
    simp only [List.orderedInsert]
    by_cases hp : p x <;> simp [hp]
  | cons y ys ih =>
    have hys : ys.Pairwise r := (List.pairwise_cons.mp hL).2
    have hyall : ∀ z ∈ ys, r y z := (List.pairwise_cons.mp hL).1
    by_cases hr : r x y
    · rw [List.orderedInsert, if_pos hr]
      by_cases hp : p x
      · by_cases hpy : p y
        · simp only [List.filter_cons, hp, hpy, if_true]
          rw [List.orderedInsert, if_pos hr]
        · simp only [List.filter_cons, hp, hpy, if_true, Bool.false_eq_true, if_false]
          rw [orderedInsert_eq_cons r x _
            (fun z hz => htr x y z hr (hyall z (List.mem_of_mem_filter hz)))]
      · by_cases hpy : p y <;>
          simp only [List.filter_cons, hp, hpy, if_true, Bool.false_eq_true, if_false]
    · rw [List.orderedInsert, if_neg hr]
      by_cases hp : p x
      · by_cases hpy : p y
        · simp only [List.filter_cons, hp, hpy, if_true]
          rw [ih hys, if_pos hp, List.orderedInsert, if_neg hr]
        · simp only [List.filter_cons, hp, hpy, if_true, Bool.false_eq_true, if_false]
          rw [ih hys, if_pos hp]
      · by_cases hpy : p y <;>
          simp only [List.filter_cons, hp, hpy, if_true, Bool.false_eq_true, if_false] <;>
          rw [ih hys, if_neg hp]

theorem sorted_insertionSort_of {α : Type} (r : α → α → Prop) [DecidableRel r]
    (htot : ∀ a b, r a b ∨ r b a) (htr : ∀ a b c, r a b → r b c → r a c)
    (l : List α) : (List.insertionSort r l).Pairwise r := by
  haveI : IsTotal α r := ⟨htot⟩
  haveI : IsTrans α r := ⟨fun a b c => htr a b c⟩
  exact List.sorted_insertionSort r l

theorem filter_insertionSort {α : Type} (r : α → α → Prop) [DecidableRel r]
    (htot : ∀ a b, r a b ∨ r b a) (htr : ∀ a b c, r a b → r b c → r a c)
    (p : α → Bool) (l : List α) :
    (List.insertionSort r l).filter p = List.insertionSort r (l.filter p) := by
  induction l with
  | nil => rfl
  | cons x xs ih =>
    rw [List.insertionSort,
      filter_orderedInsert r htr p x _ (sorted_insertionSort_of r htot htr xs), ih]
    rw [List.filter_cons]
    by_cases hp : p x
    · rw [if_pos hp, if_pos hp, List.insertionSort]
    · rw [if_neg hp, if_neg (by simpa using hp)]

theorem map_orderedInsert {α β : Type} (r : α → α → Prop) (s : β → β → Prop)
    [DecidableRel r] [DecidableRel s] (f : α → β)
    (hfact : ∀ a b, r a b ↔ s (f a) (f b)) (x : α) (L : List α) :
    (List.orderedInsert r x L).map f = List.orderedInsert s (f x) (L.map f) := by
  induction L with
  | nil => rfl
  | cons y ys ih =>
    rw [List.orderedInsert, List.map_cons, List.orderedInsert]
    by_cases hr : r x y
    · rw [if_pos hr, if_pos ((hfact x y).mp hr), List.map_cons, List.map_cons]
    · rw [if_neg hr, if_neg (fun hs => hr ((hfact x y).mpr hs)), List.map_cons, ih]

theorem map_insertionSort {α β : Type} (r : α → α → Prop) (s : β → β → Prop)
    [DecidableRel r] [DecidableRel s] (f : α → β)
    (hfact : ∀ a b, r a b ↔ s (f a) (f b)) (l : List α) :
    (List.insertionSort r l).map f = List.insertionSort s (l.map f) := by
  induction l with
  | nil => rfl
  | cons x xs ih =>
    rw [List.insertionSort, map_orderedInsert r s f hfact, ih, List.map_cons,
      List.insertionSort]

theorem mapGet_mapSet_cases {κ β : Type} [DecidableEq κ] (m : List (κ × β)) (k t : κ)
    (v e : β) (h : mapGet (mapSet m k v) t = some e) :
    e = v ∨ mapGet m t = some e := by
  by_cases ht : t = k
  · subst ht
    rw [mapGet_mapSet_self] at h
    exact Or.inl (Option.some_injective _ h).symm
  · rw [mapGet_mapSet_ne _ _ _ _ ht] at h
    exact Or.inr h

theorem buildRankIdx_enumFrom_get (l : List ScoredNote) (i0 : Nat)
    (m0 : List (String × RankEntry))
    (hnd : (l.map (fun n => n.title)).Nodup)
    (hfresh : ∀ n ∈ l, mapGet m0 n.title = none) :
    ∀ j : Fin l.length,
      mapGet ((List.enumFrom i0 l).foldl
          (fun m p => mapSet m p.2.title { rank := p.1, score := p.2.score, note := p.2 }) m0)
        (l.get j).title =
        some { rank := i0 + j, score := (l.get j).score, note := l.get j } := by
  induction l generalizing i0 m0 with
  | nil => intro j; exact absurd j.2 (by simp)
  | cons x xs ih =>
    intro j
    rw [List.enumFrom_cons, List.foldl_cons]
    have hnd2 : (xs.map (fun n => n.title)).Nodup := (List.nodup_cons.mp (by simpa using hnd)).2
    have hx : x.title ∉ xs.map (fun n => n.title) := (List.nodup_cons.mp (by simpa using hnd)).1
    rcases j with ⟨jv, hj⟩
    cases jv with
    | zero =>
      have hsurvive : ∀ (ys : List ScoredNote) (ms : List (String × RankEntry)),
          mapGet ms x.title = some { rank := i0, score := x.score, note := x } →
          ∀ (i1 : Nat), x.title ∉ ys.map (fun n => n.title) →
          mapGet ((List.enumFrom i1 ys).foldl
              (fun m p => mapSet m p.2.title { rank := p.1, score := p.2.score, note := p.2 }) ms)
            x.title = some { rank := i0, score := x.score, note := x } := by
        intro ys
        induction ys with
        | nil => intro ms hms i1 _; exact hms
        | cons y ys2 ih2 =>
          intro ms hms i1 hmem
          rw [List.enumFrom_cons, List.foldl_cons]
          have hyne : x.title ≠ y.title := fun hh =>
            hmem (hh ▸ List.mem_map.mpr ⟨y, List.mem_cons_self _ _, rfl⟩)
          have hmem2 : x.title ∉ ys2.map (fun n => n.title) := by
            intro hh
            apply hmem
            simp only [List.map_cons, List.mem_cons]
            exact Or.inr hh
          exact ih2 _ (by rw [mapGet_mapSet_ne _ _ _ _ hyne]; exact hms) (i1 + 1) hmem2
      have hstart : mapGet (mapSet m0 x.title
          { rank := i0, score := x.score, note := x }) x.title =
          some { rank := i0, score := x.score, note := x } := mapGet_mapSet_self _ _ _
      simpa using hsurvive xs _ hstart (i0 + 1) hx
    | succ jv2 =>
      have hj2 : jv2 < xs.length := by simpa using hj
      have hfresh2 : ∀ n ∈ xs, mapGet (mapSet m0 x.title
          { rank := i0, score := x.score, note := x }) n.title = none := by
        intro n hn
        rw [mapGet_mapSet_ne _ _ _ _
          (fun hh : n.title = x.title => hx (hh ▸ List.mem_map.mpr ⟨n, hn, rfl⟩))]
        exact hfresh n (List.mem_cons_of_mem _ hn)
      have hres := ih (i0 + 1) _ hnd2 hfresh2 ⟨jv2, hj2⟩
      simp only [List.get] at hres ⊢
      rw [hres]
      have : i0 + 1 + jv2 = i0 + (jv2 + 1) := by omega
      rw [this]

theorem buildRankIdx_get (l : List ScoredNote)
    (hnd : (l.map (fun n => n.title)).Nodup) (j : Fin l.length) :
    mapGet (buildRankIdx l) (l.get j).title =
      some { rank := j, score := (l.get j).score, note := l.get j } := by
  unfold buildRankIdx
  have h := buildRankIdx_enumFrom_get l 0 [] hnd (fun n _ => rfl) j
  simpa [List.enum] using h

theorem foldl_setAdd_subset {κ : Type} [DecidableEq κ] (xs acc : List κ)
    (h : ∀ x ∈ xs, x ∈ acc) : xs.foldl setAdd acc = acc := by
  induction xs generalizing acc with
  | nil => rfl
  | cons x xs ih =>
    rw [List.foldl_cons]
    have hx : setAdd acc x = acc := by
      unfold setAdd
      rw [if_pos (h x (List.mem_cons_self _ _))]
    rw [hx]
    exact ih acc (fun y hy => h y (List.mem_cons_of_mem _ hy))

theorem foldl_setAdd_fresh {κ : Type} [DecidableEq κ] (xs : List κ) :
    ∀ acc : List κ, xs.Nodup → (∀ x ∈ xs, x ∉ acc) →
    xs.foldl setAdd acc = acc ++ xs := by
  induction xs with
  | nil => intro acc _ _; simp
  | cons x xs ih =>
    intro acc hnd hfresh
    rw [List.foldl_cons]
    have hx : setAdd acc x = acc ++ [x] := by
      unfold setAdd
      rw [if_neg (hfresh x (List.mem_cons_self _ _))]
    rw [hx, ih (acc ++ [x]) (List.nodup_cons.mp hnd).2]
    · simp
    · intro y hy
      rw [List.mem_append]
      rintro (hya | hyx)
      · exact hfresh y (List.mem_cons_of_mem _ hy) hya
      · exact (List.nodup_cons.mp hnd).1 ((List.mem_singleton.mp hyx) ▸ hy)

theorem foldl_setAdd_extra {κ : Type} [DecidableEq κ] (xs : List κ) :
    ∀ acc : List κ, ∃ extra : List κ,
      xs.foldl setAdd acc = acc ++ extra ∧ ∀ t ∈ extra, t ∉ acc := by
  induction xs with
  | nil => intro acc; exact ⟨[], by simp, fun t ht => absurd ht (List.not_mem_nil t)⟩
  | cons x xs ih =>
    intro acc
    rw [List.foldl_cons]
    by_cases hx : x ∈ acc
    · rw [show setAdd acc x = acc from by unfold setAdd; rw [if_pos hx]]
      exact ih acc
    · rw [show setAdd acc x = acc ++ [x] from by unfold setAdd; rw [if_neg hx]]
      obtain ⟨extra, heq, hfr⟩ := ih (acc ++ [x])
      refine ⟨x :: extra, ?_, ?_⟩
      · rw [heq, List.append_assoc]
        rfl
      · intro t ht
        rcases List.mem_cons.mp ht with rfl | ht2
        · exact hx
        · intro hta
          exact hfr t ht2 (List.mem_append.mpr (Or.inl hta))

theorem rrfTerm_weight_zero (k : ℚ) (e : Option RankEntry) : rrfTerm k 0 e = 0 := by
  cases e <;> simp [rrfTerm]

theorem fuseNoteFor_title (k : ℚ) (w : SignalWeights)
    (iC iK iG : List (String × RankEntry)) (t : String) :
    (fuseNoteFor k w iC iK iG t).title = t := rfl

theorem fuseNoteFor_key_graph_zero (k : ℚ) (w : SignalWeights) (hw : w.graph = 0)
    (iC iK iG iG2 : List (String × RankEntry)) (t : String) :
    ((fuseNoteFor k w iC iK iG t).title, (fuseNoteFor k w iC iK iG t).score) =
      ((fuseNoteFor k w iC iK iG2 t).title, (fuseNoteFor k w iC iK iG2 t).score) := by
  simp only [fuseNoteFor, hw, rrfTerm_weight_zero]

theorem fuse_graph_weight_zero (C K G : List ScoredNote) (cfg : RetrievalConfig)
    (hw : cfg.signal_weights.graph = 0) :
    ((fuseScoreWeightedRRF { composite := C, keyword := K, graph := G } cfg).filter
        (fun n => n.title ∈
          fusionTitles { composite := C, keyword := K, graph := [] })).map
        (fun n => (n.title, n.score)) =
      (fuseScoreWeightedRRF { composite := C, keyword := K, graph := [] } cfg).map
        (fun n => (n.title, n.score)) := by
  have htot : ∀ a b : ScoredNote, b.score ≤ a.score ∨ a.score ≤ b.score :=
    fun a b => le_total b.score a.score
  have htr : ∀ a b c : ScoredNote, b.score ≤ a.score → c.score ≤ b.score →
      c.score ≤ a.score := fun a b c h1 h2 => le_trans h2 h1
  set CK := fusionTitles { composite := C, keyword := K, graph := [] } with hCK
  obtain ⟨extra, heq, hfr⟩ := foldl_setAdd_extra (G.map (fun n => n.title)) CK
  have h1 : fusionTitles { composite := C, keyword := K, graph := G } = CK ++ extra := by
    rw [← heq, hCK]
    rfl
  set k := cfg.rrf_k
  set w := cfg.signal_weights
  set iC := buildRankIdx C
  set iK := buildRankIdx K
  set iG := buildRankIdx G
  have hG2 : buildRankIdx ([] : List ScoredNote) = [] := rfl
  have hmain : fuseScoreWeightedRRF { composite := C, keyword := K, graph := G } cfg =
      List.insertionSort (fun a b : ScoredNote => b.score ≤ a.score)
        ((CK ++ extra).map (fuseNoteFor k w iC iK iG)) := by
    rw [fuseScoreWeightedRRF]
    rw [h1]
  have hside : fuseScoreWeightedRRF { composite := C, keyword := K, graph := [] } cfg =
      List.insertionSort (fun a b : ScoredNote => b.score ≤ a.score)
        (CK.map (fuseNoteFor k w iC iK [])) := by
    rw [fuseScoreWeightedRRF]
    rfl
  rw [hmain, hside]
  rw [filter_insertionSort _ htot htr]
  have hfa : ((CK ++ extra).map (fuseNoteFor k w iC iK iG)).filter
      (fun n => n.title ∈ CK) = CK.map (fuseNoteFor k w iC iK iG) := by
    rw [List.map_append, List.filter_append]
    have hl : (CK.map (fuseNoteFor k w iC iK iG)).filter (fun n => n.title ∈ CK) =
        CK.map (fuseNoteFor k w iC iK iG) := by
      apply List.filter_eq_self.mpr
      intro a ha
      obtain ⟨t, ht, rfl⟩ := List.mem_map.mp ha
      simpa [fuseNoteFor_title] using ht
    have hr : (extra.map (fuseNoteFor k w iC iK iG)).filter (fun n => n.title ∈ CK) =
        [] := by
      apply List.filter_eq_nil.mpr
      intro a ha
      obtain ⟨t, ht, rfl⟩ := List.mem_map.mp ha
      simpa [fuseNoteFor_title] using hfr t ht
    rw [hl, hr, List.append_nil]
  rw [hfa]
  rw [map_insertionSort (fun a b : ScoredNote => b.score ≤ a.score)
    (fun p q : String × ℚ => q.2 ≤ p.2) (fun n => (n.title, n.score))
    (fun a b => Iff.rfl)]
  rw [map_insertionSort (fun a b : ScoredNote => b.score ≤ a.score)
    (fun p q : String × ℚ => q.2 ≤ p.2) (fun n => (n.title, n.score))
    (fun a b => Iff.rfl)]
  rw [List.map_map, List.map_map]
  congr 1
  apply List.map_congr_left
  intro t _
  exact fuseNoteFor_key_graph_zero k w hw iC iK iG [] t

theorem rrf_term_mono (w k si sj : ℚ) (i j : ℕ) (hw : 0 ≤ w) (hk : 0 ≤ k)
    (hij : i ≤ j) (hsj : 0 ≤ sj) (hs : sj ≤ si) :
    w * sj / (k + (j : ℚ) + 1) ≤ w * si / (k + (i : ℚ) + 1) := by
  have hpi : (0 : ℚ) < k + (i : ℚ) + 1 := by positivity
  have hden : k + (i : ℚ) + 1 ≤ k + (j : ℚ) + 1 := by
    have hji : (i : ℚ) ≤ (j : ℚ) := by exact_mod_cast hij
    linarith
  have hdiv : sj / (k + (j : ℚ) + 1) ≤ si / (k + (i : ℚ) + 1) :=
    div_le_div (le_trans hsj hs) hs hpi hden
  rw [mul_div_assoc, mul_div_assoc]
  exact mul_le_mul_of_nonneg_left hdiv hw

theorem fuseNote_score_at (C K G : List ScoredNote)
    (hK : K.map (fun n => n.title) = C.map (fun n => n.title))
    (hG : G.map (fun n => n.title) = C.map (fun n => n.title))
    (hnd : (C.map (fun n => n.title)).Nodup)
    (hlK : K.length = C.length) (hlG : G.length = C.length)
    (k : ℚ) (w : SignalWeights) (j : Fin C.length) :
    (fuseNoteFor k w (buildRankIdx C) (buildRankIdx K) (buildRankIdx G)
        ((C.get j).title)).score =
      w.composite * (C.get j).score / (k + (j.val : ℚ) + 1) +
        w.keyword * (K.get (Fin.cast hlK.symm j)).score / (k + (j.val : ℚ) + 1) +
        w.graph * (G.get (Fin.cast hlG.symm j)).score / (k + (j.val : ℚ) + 1) := by
  have hjK : j.val < K.length := by rw [hlK]; exact j.2
  have hjG : j.val < G.length := by rw [hlG]; exact j.2
  have htK : (K.get (Fin.cast hlK.symm j)).title = (C.get j).title := by
    have hKb : j.val < (K.map (fun n => n.title)).length := by simpa using hjK
    have hCb : j.val < (C.map (fun n => n.title)).length := by simpa using j.2
    have h1 : (K.map (fun n => n.title))[j.val] =
        (C.map (fun n => n.title))[j.val] := by
      simp only [hK]
    simpa [List.getElem_map, List.get_eq_getElem] using h1
  have htG : (G.get (Fin.cast hlG.symm j)).title = (C.get j).title := by
    have hGb : j.val < (G.map (fun n => n.title)).length := by simpa using hjG
    have hCb : j.val < (C.map (fun n => n.title)).length := by simpa using j.2
    have h1 : (G.map (fun n => n.title))[j.val] =
        (C.map (fun n => n.title))[j.val] := by
      simp only [hG]
    simpa [List.getElem_map, List.get_eq_getElem] using h1
  have hC := buildRankIdx_get C hnd j
  have hKr := buildRankIdx_get K (by rw [hK]; exact hnd) (Fin.cast hlK.symm j)
  have hGr := buildRankIdx_get G (by rw [hG]; exact hnd) (Fin.cast hlG.symm j)
  rw [htK] at hKr
  rw [htG] at hGr
  simp only [fuseNoteFor, hC, hKr, hGr, rrfTerm, Fin.coe_cast]
  ring

theorem fuse_same_ranking (C K G : List ScoredNote) (cfg : RetrievalConfig)
    (hK : K.map (fun n => n.title) = C.map (fun n => n.title))
    (hG : G.map (fun n => n.title) = C.map (fun n => n.title))
    (hnd : (C.map (fun n => n.title)).Nodup)
    (hsC : C.Pairwise (fun a b => b.score ≤ a.score))
    (hsK : K.Pairwise (fun a b => b.score ≤ a.score))
    (hsG : G.Pairwise (fun a b => b.score ≤ a.score))
    (hnnC : ∀ n ∈ C, 0 ≤ n.score) (hnnK : ∀ n ∈ K, 0 ≤ n.score)
    (hnnG : ∀ n ∈ G, 0 ≤ n.score)
    (hk : 0 ≤ cfg.rrf_k) (hwc : 0 ≤ cfg.signal_weights.composite)
    (hwk : 0 ≤ cfg.signal_weights.keyword) (hwg : 0 ≤ cfg.signal_weights.graph) :
    (fuseScoreWeightedRRF { composite := C, keyword := K, graph := G } cfg).map
      (fun n => n.title) = C.map (fun n => n.title) := by
  have hlK : K.length = C.length := by
    have := congrArg List.length hK
    simpa using this
  have hlG : G.length = C.length := by
    have := congrArg List.length hG
    simpa using this
  have hT : fusionTitles { composite := C, keyword := K, graph := G } =
      C.map (fun n => n.title) := by
    simp only [fusionTitles]
    rw [foldl_setAdd_fresh _ [] hnd (fun x _ hx => absurd hx (List.not_mem_nil x)),
      List.nil_append, hK, foldl_setAdd_subset _ _ (fun x hx => hx), hG,
      foldl_setAdd_subset _ _ (fun x hx => hx)]
  set k := cfg.rrf_k with hkdef
  set w := cfg.signal_weights with hwdef
  set f := fuseNoteFor k w (buildRankIdx C) (buildRankIdx K) (buildRankIdx G) with hf
  have hmain : fuseScoreWeightedRRF { composite := C, keyword := K, graph := G } cfg =
      List.insertionSort (fun a b : ScoredNote => b.score ≤ a.score)
        ((C.map (fun n => n.title)).map f) := by
    rw [fuseScoreWeightedRRF, hT]
  have hget : ∀ i : Fin (((C.map (fun n => n.title)).map f).length),
      ((C.map (fun n => n.title)).map f).get i =
        f ((C.get ⟨i.val, by simpa using i.2⟩).title) := by
    intro i
    simp [List.get_eq_getElem, List.getElem_map]
  have hsorted : ((C.map (fun n => n.title)).map f).Pairwise
      (fun a b : ScoredNote => b.score ≤ a.score) := by
    rw [List.pairwise_iff_get]
    intro i j hij
    rw [hget i, hget j]
    simp only [hf]
    set iC : Fin C.length := ⟨i.val, by simpa using i.2⟩
    set jC : Fin C.length := ⟨j.val, by simpa using j.2⟩
    rw [fuseNote_score_at C K G hK hG hnd hlK hlG k w iC,
      fuseNote_score_at C K G hK hG hnd hlK hlG k w jC]
    have hij2 : iC.val ≤ jC.val := le_of_lt hij
    have hCs : (C.get jC).score ≤ (C.get iC).score :=
      (List.pairwise_iff_get.mp hsC) iC jC hij
    have hKs : (K.get (Fin.cast hlK.symm jC)).score ≤
        (K.get (Fin.cast hlK.symm iC)).score :=
      (List.pairwise_iff_get.mp hsK) (Fin.cast hlK.symm iC) (Fin.cast hlK.symm jC) hij
    have hGs : (G.get (Fin.cast hlG.symm jC)).score ≤
        (G.get (Fin.cast hlG.symm iC)).score :=
      (List.pairwise_iff_get.mp hsG) (Fin.cast hlG.symm iC) (Fin.cast hlG.symm jC) hij
    have h1 := rrf_term_mono w.composite k (C.get iC).score (C.get jC).score
      iC.val jC.val hwc hk hij2 (hnnC _ (C.get_mem _ _)) hCs
    have h2 := rrf_term_mono w.keyword k (K.get (Fin.cast hlK.symm iC)).score
      (K.get (Fin.cast hlK.symm jC)).score iC.val jC.val hwk hk hij2
      (hnnK _ (K.get_mem _ _)) hKs
    have h3 := rrf_term_mono w.graph k (G.get (Fin.cast hlG.symm iC)).score
      (G.get (Fin.cast hlG.symm jC)).score iC.val jC.val hwg hk hij2
      (hnnG _ (G.get_mem _ _)) hGs
    exact add_le_add (add_le_add h1 h2) h3
  rw [hmain, List.Sorted.insertionSort_eq hsorted, List.map_map]
  conv_rhs => rw [show List.map (fun n => n.title) C =
    List.map id (List.map (fun n => n.title) C) from (List.map_id _).symm]
  apply List.map_congr_left
  intro t _
  simp [Function.comp, hf, fuseNoteFor_title]

/-- C9: score-weighted RRF fusion. (1) A signal weight of 0 contributes
nothing to any fused score. (2) With the graph signal weighted 0, replacing
the graph signal list by the empty list leaves the relative (title, score)
ranking of the titles of the other two signals unchanged. (3) If the three
signal lists present the same (distinct) titles in the same order, each
sorted by score descending with non-negative scores, then fusion with
non-negative weights and non-negative rrf k returns those titles in the
same order. -/
theorem c9_rrf_fusion_invariance :
    (∀ (k : ℚ) (e : Option RankEntry), rrfTerm k 0 e = 0) ∧
    (∀ (C K G : List ScoredNote) (cfg : RetrievalConfig),
      cfg.signal_weights.graph = 0 →
      ((fuseScoreWeightedRRF { composite := C, keyword := K, graph := G } cfg).filter
          (fun n => n.title ∈
            fusionTitles { composite := C, keyword := K, graph := [] })).map
          (fun n => (n.title, n.score)) =
        (fuseScoreWeightedRRF { composite := C, keyword := K, graph := [] } cfg).map
          (fun n => (n.title, n.score))) ∧
    (∀ (C K G : List ScoredNote) (cfg : RetrievalConfig),
      K.map (fun n => n.title) = C.map (fun n => n.title) →
      G.map (fun n => n.title) = C.map (fun n => n.title) →
      (C.map (fun n => n.title)).Nodup →
      C.Pairwise (fun a b => b.score ≤ a.score) →
      K.Pairwise (fun a b => b.score ≤ a.score) →
      G.Pairwise (fun a b => b.score ≤ a.score) →
      (∀ n ∈ C, 0 ≤ n.score) → (∀ n ∈ K, 0 ≤ n.score) → (∀ n ∈ G, 0 ≤ n.score) →
      0 ≤ cfg.rrf_k → 0 ≤ cfg.signal_weights.composite →
      0 ≤ cfg.signal_weights.keyword → 0 ≤ cfg.signal_weights.graph →
      (fuseScoreWeightedRRF { composite := C, keyword := K, graph := G } cfg).map
        (fun n => n.title) = C.map (fun n => n.title)) :=
  ⟨rrfTerm_weight_zero, fuse_graph_weight_zero, fuse_same_ranking⟩

/-- Witness for C9 at concrete two-note signal lists: the hypotheses hold and
both fusion conclusions follow. -/
theorem c9_witness :
    (c9notes2.map (fun n => n.title) = c9notes1.map (fun n => n.title)) ∧
    ((c9notes1.map (fun n => n.title)).Nodup) ∧
    c9notes1.Pairwise (fun a b => b.score ≤ a.score) ∧
    (∀ n ∈ c9notes1, 0 ≤ n.score) ∧
    (0 : ℚ) ≤ defaultConfig.retrieval.rrf_k ∧
    c9cfg0.signal_weights.graph = 0 ∧
    ((fuseScoreWeightedRRF
        { composite := c9notes1, keyword := c9notes2, graph := c9notes3 }
        defaultConfig.retrieval).map (fun n => n.title) =
      c9notes1.map (fun n => n.title)) ∧
    (((fuseScoreWeightedRRF
        { composite := c9notes1, keyword := c9notes2, graph := c9graph } c9cfg0).filter
          (fun n => n.title ∈ fusionTitles
            { composite := c9notes1, keyword := c9notes2, graph := [] })).map
          (fun n => (n.title, n.score)) =
      (fuseScoreWeightedRRF
        { composite := c9notes1, keyword := c9notes2, graph := [] } c9cfg0).map
          (fun n => (n.title, n.score))) :=
  ⟨by with_unfolding_all decide, by with_unfolding_all decide,
   by with_unfolding_all decide, by with_unfolding_all decide,
   by with_unfolding_all decide, by with_unfolding_all decide,
   c9_rrf_fusion_invariance.2.2 c9notes1 c9notes2 c9notes3 defaultConfig.retrieval
     (by with_unfolding_all decide) (by with_unfolding_all decide)
     (by with_unfolding_all decide) (by with_unfolding_all decide)
     (by with_unfolding_all decide) (by with_unfolding_all decide)
     (by with_unfolding_all decide) (by with_unfolding_all decide)
     (by with_unfolding_all decide) (by with_unfolding_all decide)
     (by with_unfolding_all decide) (by with_unfolding_all decide)
     (by with_unfolding_all decide),
   c9_rrf_fusion_invariance.2.1 c9notes1 c9notes2 c9graph c9cfg0
     (by with_unfolding_all decide)⟩

theorem injectExploration_spec (results : List ScoredNote) (allNotes : List String)
    (budget : ℚ) (rand : Nat → Nat) (hb : 0 < budget)
    (hclean : ∀ r ∈ results, isExplorationFlagged r = false) :
    ((injectExploration results allNotes budget rand).countP isExplorationFlagged =
      if results.length = 0 then 0
      else min (max 1 ⌊(results.length : ℚ) * budget⌋).toNat
        ((allNotes.filter (fun m => !(results.map (fun r => r.title)).contains m)).length)) ∧
    (∀ x ∈ injectExploration results allNotes budget rand,
       isExplorationFlagged x = true → x.title ∉ results.map (fun r => r.title)) ∧
    (∀ x ∈ injectExploration results allNotes budget rand,
       isExplorationFlagged x = false → x.title ∈ results.map (fun r => r.title)) := by
  by_cases hz : results.length = 0
  · have hres : results = [] := List.length_eq_zero.mp hz
    subst hres
    simp [injectExploration]
  · unfold injectExploration
    rw [if_neg (by push_neg; exact ⟨by linarith, hz⟩)]
    simp only []
    set n := results.length with hn
    set rc : Int := max 1 ⌊(n : ℚ) * budget⌋ with hrc
    have hrc1 : 1 ≤ rc := le_max_left _ _
    set cand := allNotes.filter (fun m => !(results.map (fun r => r.title)).contains m)
      with hcand
    set shuf := fisherYates rand cand with hshufd
    have hsl : shuf.length = cand.length := length_fisherYates rand cand
    set picks := jsSlice shuf 0 rc with hpks
    have hp : picks.length = min rc.toNat cand.length := by
      rw [hpks, length_jsSlice, hsl,
        jsSliceIdx_of_nonneg _ _ (by omega : (0:Int) ≤ rc),
        jsSliceIdx_of_nonneg _ _ le_rfl]
      omega
    -- the three kinds of output entries
    have hkeptmem : ∀ x ∈ jsSlice results 0 ((n : Int) - rc), x ∈ results :=
      fun x hx => mem_jsSlice hx
    have hpadmem : ∀ d : Int, ∀ x ∈ jsSlice results ((n : Int) - rc) d, x ∈ results :=
      fun d x hx => mem_jsSlice hx
    have hpickfresh : ∀ t ∈ picks, t ∉ results.map (fun r => r.title) := by
      intro t ht
      have h1 : t ∈ cand := mem_of_mem_fisherYates (mem_jsSlice ht)
      have h2 := List.of_mem_filter h1
      simpa using h2
    have hinjected : ∀ x ∈ picks.map (fun title =>
        ({ title := title, score := 0, signals := {},
           metadata := some { wasExploration := true } } : ScoredNote)),
        isExplorationFlagged x = true ∧ x.title ∉ results.map (fun r => r.title) := by
      intro x hx
      simp only [List.mem_map] at hx
      obtain ⟨t, ht, rfl⟩ := hx
      exact ⟨rfl, hpickfresh t ht⟩
    rw [if_neg hz]
    refine ⟨?_, ?_, ?_⟩
    · -- flagged count
      split
      next hdef =>
        rw [List.countP_append, List.countP_append]
        have c1 : (jsSlice results 0 ((n : Int) - rc)).countP isExplorationFlagged = 0 :=
          List.countP_eq_zero.mpr (fun a ha => by
            rw [hclean a (hkeptmem a ha)]; simp)
        have c3 : (jsSlice results ((n:Int) - rc) (((n:Int) - rc) + (rc - picks.length))).countP
            isExplorationFlagged = 0 :=
          List.countP_eq_zero.mpr (fun a ha => by
            rw [hclean a (hpadmem _ a ha)]; simp)
        have c2 : (picks.map (fun title =>
            ({ title := title, score := 0, signals := {},
               metadata := some { wasExploration := true } } : ScoredNote))).countP
            isExplorationFlagged = picks.length := by
          rw [List.countP_eq_length.mpr (fun a ha => (hinjected a ha).1), List.length_map]
        rw [c1, c2, c3]
        omega
      next hdef =>
        rw [List.countP_append]
        have c1 : (jsSlice results 0 ((n : Int) - rc)).countP isExplorationFlagged = 0 :=
          List.countP_eq_zero.mpr (fun a ha => by
            rw [hclean a (hkeptmem a ha)]; simp)
        have c2 : (picks.map (fun title =>
            ({ title := title, score := 0, signals := {},
               metadata := some { wasExploration := true } } : ScoredNote))).countP
            isExplorationFlagged = picks.length := by
          rw [List.countP_eq_length.mpr (fun a ha => (hinjected a ha).1), List.length_map]
        rw [c1, c2]
        omega
    · -- flagged entries carry fresh titles
      intro x hx hflag
      split at hx
      next hdef =>
        rcases List.mem_append.mp hx with hx1 | hx3
        · rcases List.mem_append.mp hx1 with hx1 | hx2
          · rw [hclean x (hkeptmem x hx1)] at hflag; cases hflag
          · exact (hinjected x hx2).2
        · rw [hclean x (hpadmem _ x hx3)] at hflag; cases hflag
      next hdef =>
        rcases List.mem_append.mp hx with hx1 | hx2
        · rw [hclean x (hkeptmem x hx1)] at hflag; cases hflag
        · exact (hinjected x hx2).2
    · -- unflagged entries come from the input
      intro x hx hflag
      split at hx
      next hdef =>
        rcases List.mem_append.mp hx with hx1 | hx3
        · rcases List.mem_append.mp hx1 with hx1 | hx2
          · exact List.mem_map.mpr ⟨x, hkeptmem x hx1, rfl⟩
          · rw [(hinjected x hx2).1] at hflag; cases hflag
        · exact List.mem_map.mpr ⟨x, hpadmem _ x hx3, rfl⟩
      next hdef =>
        rcases List.mem_append.mp hx with hx1 | hx2
        · exact List.mem_map.mpr ⟨x, hkeptmem x hx1, rfl⟩
        · rw [(hinjected x hx2).1] at hflag; cases hflag

theorem mapGet_rankFold_mem (zs : List (Nat × ScoredNote)) :
    ∀ (m0 : List (String × RankEntry)) (t : String) (e : RankEntry),
    mapGet (zs.foldl (fun m p =>
        mapSet m p.2.title { rank := p.1, score := p.2.score, note := p.2 }) m0) t =
      some e →
    mapGet m0 t = some e ∨ ∃ p ∈ zs, e.note = p.2 := by
  induction zs with
  | nil => intro m0 t e h; exact Or.inl h
  | cons z zs ih =>
    intro m0 t e h
    rw [List.foldl_cons] at h
    rcases ih _ t e h with h1 | ⟨p, hp, hep⟩
    · rcases mapGet_mapSet_cases m0 z.2.title t _ e h1 with he | h2
      · exact Or.inr ⟨z, List.mem_cons_self _ _, by rw [he]⟩
      · exact Or.inl h2
    · exact Or.inr ⟨p, List.mem_cons_of_mem _ hp, hep⟩

theorem buildRankIdx_note_mem (l : List ScoredNote) (t : String) (e : RankEntry)
    (h : mapGet (buildRankIdx l) t = some e) : e.note ∈ l := by
  rcases mapGet_rankFold_mem l.enum [] t e h with h1 | ⟨p, hp, hep⟩
  · cases h1
  · rw [hep, ← List.enum_map_snd l]
    exact List.mem_map.mpr ⟨p, hp, rfl⟩

theorem searchComposite_metadata (env : Env) (queryText : String)
    (intent : ClassifiedQuery) (storedVectors : List (String × StoredVectors))
    (graphMetrics : GraphMetrics) (vitalityScores : List (String × ℚ)) (limit : Nat)
    (cfg : EngineConfig) (n : ScoredNote)
    (h : n ∈ searchComposite env queryText intent storedVectors graphMetrics
      vitalityScores limit cfg) : n.metadata = none := by
  simp only [searchComposite] at h
  have h2 := (List.perm_insertionSort _ _).mem_iff.mp (mem_jsSlice h)
  obtain ⟨e, _, rfl⟩ := List.mem_map.mp h2
  rfl

theorem searchBM25_metadata (logQ : ℚ → ℚ) (query : String) (index : BM25Index)
    (cfg : BM25Config) (limit : Nat) (n : ScoredNote)
    (h : n ∈ searchBM25 logQ query index cfg limit) : n.metadata = none := by
  simp only [searchBM25] at h
  split at h
  · cases h
  · have h2 := (List.perm_insertionSort _ _).mem_iff.mp (mem_jsSlice h)
    obtain ⟨e, _, rfl⟩ := List.mem_map.mp h2
    rfl

theorem pipelineSignals_metadata (env : Env) (query : String) (limit : Option Nat) :
    (∀ n ∈ (pipelineSignals env query limit).composite, n.metadata = none) ∧
    (∀ n ∈ (pipelineSignals env query limit).keyword, n.metadata = none) ∧
    (∀ n ∈ (pipelineSignals env query limit).graph, n.metadata = none) := by
  refine ⟨?_, ?_, ?_⟩
  · intro n hn
    exact searchComposite_metadata _ _ _ _ _ _ _ _ n hn
  · intro n hn
    exact searchBM25_metadata _ _ _ _ _ n hn
  · intro n hn
    simp only [pipelineSignals] at hn
    have h2 := (List.perm_insertionSort _ _).mem_iff.mp (mem_jsSlice hn)
    obtain ⟨e, _, rfl⟩ := List.mem_map.mp h2
    rfl

theorem fuseNoteFor_metadata (k : ℚ) (w : SignalWeights)
    (iC iK iG : List (String × RankEntry)) (t : String)
    (hC : ∀ e, mapGet iC t = some e → e.note.metadata = none)
    (hK : ∀ e, mapGet iK t = some e → e.note.metadata = none)
    (hG : ∀ e, mapGet iG t = some e → e.note.metadata = none) :
    (fuseNoteFor k w iC iK iG t).metadata = none := by
  have h1 : (mapGet iC t).bind (fun e => e.note.metadata) = none := by
    cases hc : mapGet iC t with
    | none => rfl
    | some e => simpa using hC e hc
  have h2 : (mapGet iK t).bind (fun e => e.note.metadata) = none := by
    cases hc : mapGet iK t with
    | none => rfl
    | some e => simpa using hK e hc
  have h3 : (mapGet iG t).bind (fun e => e.note.metadata) = none := by
    cases hc : mapGet iG t with
    | none => rfl
    | some e => simpa using hG e hc
  simp only [fuseNoteFor, h1, h2, h3]
  rfl

theorem mem_fuse_exists (S : SignalResults) (cfg : RetrievalConfig) (n : ScoredNote)
    (h : n ∈ fuseScoreWeightedRRF S cfg) :
    ∃ t, n = fuseNoteFor cfg.rrf_k cfg.signal_weights (buildRankIdx S.composite)
      (buildRankIdx S.keyword) (buildRankIdx S.graph) t := by
  simp only [fuseScoreWeightedRRF] at h
  have h2 := (List.perm_insertionSort _ _).mem_iff.mp h
  obtain ⟨t, _, rfl⟩ := List.mem_map.mp h2
  exact ⟨t, rfl⟩

theorem pipelineTrimmed_clean (env : Env) (query : String) (limit : Option Nat) :
    ∀ n ∈ pipelineTrimmed env query limit, isExplorationFlagged n = false := by
  intro n hn
  have hf : n ∈ pipelineFused env query limit := mem_jsSlice hn
  rw [pipelineFused] at hf
  obtain ⟨t, rfl⟩ := mem_fuse_exists _ _ n hf
  obtain ⟨hmC, hmK, hmG⟩ := pipelineSignals_metadata env query limit
  have hmeta := fuseNoteFor_metadata env.config.retrieval.rrf_k
    env.config.retrieval.signal_weights
    (buildRankIdx (pipelineSignals env query limit).composite)
    (buildRankIdx (pipelineSignals env query limit).keyword)
    (buildRankIdx (pipelineSignals env query limit).graph) t
    (fun e he => hmC e.note (buildRankIdx_note_mem _ t e he))
    (fun e he => hmK e.note (buildRankIdx_note_mem _ t e he))
    (fun e he => hmG e.note (buildRankIdx_note_mem _ t e he))
  unfold isExplorationFlagged
  rw [hmeta]

/-- C3 counterexample: with the default positive exploration budget (1/10) and
default limit, the list served for the empty query on a one-note corpus
contains zero exploration-flagged entries, not the claimed floor(K*b) >= 1. -/
theorem c3_counterexample :
    0 < env1.config.retrieval.exploration_budget ∧
    (pipelineServed env1 "" none).countP isExplorationFlagged = 0 := by
  with_unfolding_all decide

/-- C3 (amended): for every environment, query and limit, when the exploration
budget b is positive the served list contains exactly
min(max(1, floor(L*b)), #candidates) exploration-flagged entries, where L is
the length of the trimmed fused list (not the limit K) and the candidates are
the corpus titles absent from the trimmed list - 0 when the trimmed list is
empty; every flagged entry's title is absent from the trimmed titles, every
unflagged entry's title comes from them, so a flagged and an unflagged served
entry never share a title; and a successful runQueryRanked serves exactly
this list. -/
theorem c3_exploration_bookkeeping_amended (env : Env) (query : String)
    (limit : Option Nat) (hb : 0 < env.config.retrieval.exploration_budget) :
    ((pipelineServed env query limit).countP isExplorationFlagged =
      if (pipelineTrimmed env query limit).length = 0 then 0
      else min (max 1 ⌊((pipelineTrimmed env query limit).length : ℚ) *
          env.config.retrieval.exploration_budget⌋).toNat
        (((allTitlesOf env).filter (fun m =>
          !((pipelineTrimmed env query limit).map (fun r => r.title)).contains
            m)).length)) ∧
    (∀ x ∈ pipelineServed env query limit, isExplorationFlagged x = true →
      x.title ∉ (pipelineTrimmed env query limit).map (fun r => r.title)) ∧
    (∀ x ∈ pipelineServed env query limit, isExplorationFlagged x = false →
      x.title ∈ (pipelineTrimmed env query limit).map (fun r => r.title)) ∧
    (∀ x ∈ pipelineServed env query limit, ∀ y ∈ pipelineServed env query limit,
      isExplorationFlagged x = true → isExplorationFlagged y = false →
      x.title ≠ y.title) ∧
    (∀ r, runQueryRanked env query limit = .ok r →
      r.data.results = pipelineServed env query limit) := by
  obtain ⟨h1, h2, h3⟩ := injectExploration_spec (pipelineTrimmed env query limit)
    (allTitlesOf env) env.config.retrieval.exploration_budget env.rand hb
    (pipelineTrimmed_clean env query limit)
  refine ⟨h1, h2, h3, ?_, ?_⟩
  · intro x hx y hy hfx hfy heq
    exact h2 x hx hfx (heq ▸ h3 y hy hfy)
  · intro r hr
    unfold runQueryRanked at hr
    simp only [] at hr
    split at hr
    · cases hr
    · cases hr
      rfl

/-- Witness for C3 at a concrete two-note corpus with budget one half and
limit one: the budget is positive and all five conclusions hold; in
particular exactly one served entry is exploration-flagged. -/
theorem c3_witness :
    0 < env2.config.retrieval.exploration_budget ∧
    (((pipelineServed env2 "" (some 1)).countP isExplorationFlagged =
      if (pipelineTrimmed env2 "" (some 1)).length = 0 then 0
      else min (max 1 ⌊((pipelineTrimmed env2 "" (some 1)).length : ℚ) *
          env2.config.retrieval.exploration_budget⌋).toNat
        (((allTitlesOf env2).filter (fun m =>
          !((pipelineTrimmed env2 "" (some 1)).map (fun r => r.title)).contains
            m)).length)) ∧
    (∀ x ∈ pipelineServed env2 "" (some 1), isExplorationFlagged x = true →
      x.title ∉ (pipelineTrimmed env2 "" (some 1)).map (fun r => r.title)) ∧
    (∀ x ∈ pipelineServed env2 "" (some 1), isExplorationFlagged x = false →
      x.title ∈ (pipelineTrimmed env2 "" (some 1)).map (fun r => r.title)) ∧
    (∀ x ∈ pipelineServed env2 "" (some 1), ∀ y ∈ pipelineServed env2 "" (some 1),
      isExplorationFlagged x = true → isExplorationFlagged y = false →
      x.title ≠ y.title) ∧
    (∀ r, runQueryRanked env2 "" (some 1) = .ok r →
      r.data.results = pipelineServed env2 "" (some 1))) ∧
    (pipelineServed env2 "" (some 1)).countP isExplorationFlagged = 1 :=
  ⟨by with_unfolding_all decide,
   c3_exploration_bookkeeping_amended env2 "" (some 1) (by with_unfolding_all decide),
   by set_option maxRecDepth 4000 in with_unfolding_all decide⟩

theorem jsSlice_nil {α : Type} (s e : Int) : jsSlice ([] : List α) s e = [] := by
  simp [jsSlice]

theorem foldl_nil_invariant {α β : Type} (f : List β → α → List β) (l : List α)
    (hf : ∀ a, f [] a = []) : l.foldl f [] = [] := by
  induction l with
  | nil => rfl
  | cons x xs ih => rw [List.foldl_cons, hf x]; exact ih

theorem searchBM25_nil (logQ : ℚ → ℚ) (query : String) (cfg : BM25Config)
    (limit : Nat) : searchBM25 logQ query (buildBM25Index [] cfg) cfg limit = [] := by
  simp only [searchBM25, buildBM25Index]
  split
  · rfl
  · rw [foldl_nil_invariant _ _ (fun t => rfl)]
    simp [jsSlice]

theorem searchComposite_nil (env : Env) (queryText : String)
    (intent : ClassifiedQuery) (graphMetrics : GraphMetrics)
    (vitalityScores : List (String × ℚ)) (limit : Nat) (cfg : EngineConfig) :
    searchComposite env queryText intent [] graphMetrics vitalityScores limit cfg =
      [] := by
  simp only [searchComposite]
  simp [jsSlice]

theorem buildIndex_notes_nil (env : Env) (db : List (String × StoredVectors))
    (force : Bool) (hnotes : env.notes = []) : (buildIndex env db force).2 = db := by
  simp [buildIndex, hnotes]

theorem pipelineStored_nil (env : Env) (hnotes : env.notes = [])
    (hdb : env.db = none ∨ env.db = some []) : pipelineStored env = [] := by
  unfold pipelineStored
  rcases hdb with h | h <;> rw [h] <;>
    simp [buildIndex_notes_nil _ _ _ hnotes]

theorem pipelineSignals_nil (env : Env) (query : String) (limit : Option Nat)
    (hnotes : env.notes = []) (hdb : env.db = none ∨ env.db = some []) :
    pipelineSignals env query limit = { composite := [], keyword := [], graph := [] } := by
  simp only [pipelineSignals]
  rw [pipelineStored_nil env hnotes hdb, searchComposite_nil]
  have hbm : bmDocsOf env = [] := by simp [bmDocsOf, hnotes]
  rw [hbm, searchBM25_nil]
  rw [hnotes]
  simp [personalizedPageRank, buildGraphologyGraph, GGraph.order, jsSlice_nil,
    buildGraph, buildGraphStep]

theorem pipelineServed_nil (env : Env) (query : String) (limit : Option Nat)
    (hnotes : env.notes = []) (hdb : env.db = none ∨ env.db = some []) :
    pipelineServed env query limit = [] := by
  have hfused : pipelineFused env query limit = [] := by
    rw [pipelineFused, pipelineSignals_nil env query limit hnotes hdb]
    rfl
  have htrim : pipelineTrimmed env query limit = [] := by
    rw [pipelineTrimmed, hfused, jsSlice_nil]
  rw [pipelineServed, htrim]
  simp [injectExploration]

/-- C2 counterexample: runQueryRanked on the EMPTY QUERY over a one-note
corpus returns one result, not an empty list: there is no empty-query early
return anywhere in the pipeline. -/
theorem c2_counterexample :
    (runQueryRanked env1 "" none).map
      (fun r => (r.success, r.data.results.length)) = .ok (true, 1) := by
  with_unfolding_all decide

/-- C2 (amended): the empty-query half of the claim is false (see the
counterexample); the empty-corpus half holds provided the embedding database
holds no stale rows (it is absent or empty) and the access-log append
succeeds: then runQueryRanked returns success with an empty result list for
every query. -/
theorem c2_empty_corpus_amended (env : Env) (query : String) (limit : Option Nat)
    (hnotes : env.notes = []) (hdb : env.db = none ∨ env.db = some [])
    (hlog : ∀ ev, env.logAppend ev = .ok ()) :
    ∃ res, runQueryRanked env query limit = .ok res ∧ res.success = true ∧
      res.data.results = [] ∧ res.data.count = 0 := by
  have hserved := pipelineServed_nil env query limit hnotes hdb
  simp only [runQueryRanked, hserved, hlog]
  exact ⟨_, rfl, rfl, rfl, rfl⟩

/-- Witness for C2 at the concrete empty-corpus environment and a non-empty
query. -/
theorem c2_witness :
    baseEnv.notes = [] ∧ (baseEnv.db = none ∨ baseEnv.db = some []) ∧
    (∃ res, runQueryRanked baseEnv "hello" none = .ok res ∧ res.success = true ∧
      res.data.results = [] ∧ res.data.count = 0) :=
  ⟨rfl, Or.inl rfl,
   c2_empty_corpus_amended baseEnv "hello" none rfl (Or.inl rfl) (fun ev => rfl)⟩

/-- C1: contrary to the spec, a failing propensity-log append FAILS the whole
query: runQueryRanked awaits logAccess with no try/catch, so when every log
append rejects with a message the query rejects with that same message
instead of returning its ranked result. -/
theorem c1_log_failure_fails_query (env : Env) (query : String) (limit : Option Nat)
    (msg : String) (hlog : ∀ ev, env.logAppend ev = .error msg) :
    runQueryRanked env query limit = .error msg := by
  unfold runQueryRanked
  simp only [hlog]

/-- Witness for C1: a one-note environment whose log append always fails with
message boom makes the ranked query itself fail with boom. -/
theorem c1_witness :
    (∀ ev, ({ env1 with logAppend := fun _ => .error "boom" } : Env).logAppend ev =
      .error "boom") ∧
    runQueryRanked { env1 with logAppend := fun _ => .error "boom" } "" none =
      .error "boom" :=
  ⟨fun ev => rfl,
   c1_log_failure_fails_query { env1 with logAppend := fun _ => .error "boom" }
     "" none "boom" (fun ev => rfl)⟩

theorem buildIndexStep_skip (env : Env) (eh : List (String × String))
    (lg : LinkGraph) (comm : List (String × Nat)) (tc : Nat)
    (acc : Nat × Nat × List (String × StoredVectors)) (file : String × String)
    (h : mapGet eh file.1 = some (noteHash env file)) :
    buildIndexStep env false eh lg comm tc acc file =
      (acc.1, acc.2.1 + 1, acc.2.2) := by
  unfold buildIndexStep
  rw [if_pos ⟨rfl, h⟩]

theorem buildIndexStep_index (env : Env) (eh : List (String × String))
    (lg : LinkGraph) (comm : List (String × Nat)) (tc : Nat)
    (acc : Nat × Nat × List (String × StoredVectors)) (file : String × String)
    (h : mapGet eh file.1 ≠ some (noteHash env file)) :
    buildIndexStep env false eh lg comm tc acc file =
      (acc.1 + 1, acc.2.1,
        indexNote env acc.2.2 file.1
          ((parseFrontmatter env.yamlData file.2).1.getD {})
          (parseFrontmatter env.yamlData file.2).2 lg comm tc) := by
  unfold buildIndexStep
  rw [if_neg (fun hc => h hc.2)]

theorem indexFold_all_skip (env : Env) (eh : List (String × String))
    (lg : LinkGraph) (comm : List (String × Nat)) (tc : Nat)
    (ns : List (String × String))
    (h : ∀ f ∈ ns, mapGet eh f.1 = some (noteHash env f)) :
    ∀ acc : Nat × Nat × List (String × StoredVectors),
    ns.foldl (buildIndexStep env false eh lg comm tc) acc =
      (acc.1, acc.2.1 + ns.length, acc.2.2) := by
  induction ns with
  | nil => intro acc; rfl
  | cons f fs ih =>
    intro acc
    rw [List.foldl_cons, buildIndexStep_skip env eh lg comm tc acc f
      (h f (List.mem_cons_self _ _)),
      ih (fun g hg => h g (List.mem_cons_of_mem _ hg))]
    simp only [List.length_cons]
    have hn : acc.2.1 + 1 + fs.length = acc.2.1 + (fs.length + 1) := by omega
    rw [hn]

theorem mapGet_eq_none_of {β : Type} (m : List (String × β)) (x : String)
    (h : ∀ e ∈ m, e.1 ≠ x) : mapGet m x = none := by
  induction m with
  | nil => rfl
  | cons e es ih =>
    unfold mapGet
    rw [if_neg (fun hx => h e (List.mem_cons_self _ _) (by simpa using hx))]
    exact ih (fun g hg => h g (List.mem_cons_of_mem _ hg))

theorem hashesOf_upsert_self (db : List (String × StoredVectors)) (t : String)
    (r : StoredVectors) :
    mapGet (hashesOf (dbUpsert db t r)) t = some r.contentHash := by
  unfold hashesOf dbUpsert
  rw [List.map_append, mapGet_append_left]
  · simp [mapGet]
  · apply mapGet_eq_none_of
    intro e he
    obtain ⟨p, hp, rfl⟩ := List.mem_map.mp he
    have := List.of_mem_filter hp
    simpa using this

theorem mapGet_map_filter_ne (db : List (String × StoredVectors)) (t x : String)
    (hx : x ≠ t) :
    mapGet ((db.filter (fun e => e.1 ≠ t)).map (fun e => (e.1, e.2.contentHash))) x =
      mapGet (db.map (fun e => (e.1, e.2.contentHash))) x := by
  induction db with
  | nil => rfl
  | cons e es ih =>
    by_cases he : e.1 = t
    · rw [List.filter_cons_of_neg (by simpa using he), List.map_cons, mapGet,
        if_neg (fun h => hx (by rw [← h]; exact he)), ih]
    · rw [List.filter_cons_of_pos (by simpa using he), List.map_cons, List.map_cons,
        mapGet, mapGet, ih]

theorem hashesOf_upsert_ne (db : List (String × StoredVectors)) (t x : String)
    (r : StoredVectors) (hx : x ≠ t) :
    mapGet (hashesOf (dbUpsert db t r)) x = mapGet (hashesOf db) x := by
  unfold hashesOf dbUpsert
  rw [List.map_append,
    show List.map (fun e => (e.1, e.2.contentHash)) [(t, r)] = [(t, r.contentHash)]
      from rfl,
    mapGet_append_one_ne _ _ _ _ hx, mapGet_map_filter_ne _ _ _ hx]

theorem indexFold_preserve (env : Env) (eh : List (String × String))
    (lg : LinkGraph) (comm : List (String × Nat)) (tc : Nat)
    (ns : List (String × String)) :
    ∀ (acc : Nat × Nat × List (String × StoredVectors)) (x : String),
    x ∉ ns.map Prod.fst →
    mapGet (hashesOf ((ns.foldl (buildIndexStep env false eh lg comm tc) acc).2.2)) x =
      mapGet (hashesOf acc.2.2) x := by
  induction ns with
  | nil => intro acc x _; rfl
  | cons f fs ih =>
    intro acc x hx
    have hxf : x ≠ f.1 := by
      intro h
      exact hx (h ▸ List.mem_map.mpr ⟨f, List.mem_cons_self _ _, rfl⟩)
    have hxfs : x ∉ fs.map Prod.fst := by
      intro h
      exact hx (by simp only [List.map_cons, List.mem_cons]; exact Or.inr h)
    rw [List.foldl_cons]
    by_cases hskip : mapGet eh f.1 = some (noteHash env f)
    · rw [buildIndexStep_skip env eh lg comm tc acc f hskip, ih _ x hxfs]
    · rw [buildIndexStep_index env eh lg comm tc acc f hskip, ih _ x hxfs]
      simp only [indexNote]
      exact hashesOf_upsert_ne _ _ _ _ hxf

theorem indexFold_hashes (env : Env) (eh : List (String × String))
    (lg : LinkGraph) (comm : List (String × Nat)) (tc : Nat)
    (ns : List (String × String)) :
    ∀ (acc : Nat × Nat × List (String × StoredVectors)),
    (ns.map Prod.fst).Nodup →
    (∀ f ∈ ns, mapGet eh f.1 = some (noteHash env f) →
      mapGet (hashesOf acc.2.2) f.1 = some (noteHash env f)) →
    ∀ f ∈ ns,
      mapGet (hashesOf ((ns.foldl (buildIndexStep env false eh lg comm tc)
        acc).2.2)) f.1 = some (noteHash env f) := by
  induction ns with
  | nil => intro acc _ _ f hf; cases hf
  | cons g gs ih =>
    intro acc hnd hpre f hf
    have hgn : g.1 ∉ gs.map Prod.fst := (List.nodup_cons.mp (by simpa using hnd)).1
    have hnd2 : (gs.map Prod.fst).Nodup := (List.nodup_cons.mp (by simpa using hnd)).2
    rw [List.foldl_cons]
    by_cases hskip : mapGet eh g.1 = some (noteHash env g)
    · rw [buildIndexStep_skip env eh lg comm tc acc g hskip]
      rcases List.mem_cons.mp hf with rfl | hf2
      · rw [indexFold_preserve env eh lg comm tc gs _ f.1 hgn]
        exact hpre f (List.mem_cons_self _ _) hskip
      · exact ih (acc.1, acc.2.1 + 1, acc.2.2) hnd2
          (fun p hp hps => hpre p (List.mem_cons_of_mem _ hp) hps) f hf2
    · rw [buildIndexStep_index env eh lg comm tc acc g hskip]
      rcases List.mem_cons.mp hf with rfl | hf2
      · rw [indexFold_preserve env eh lg comm tc gs _ f.1 hgn]
        simp only [indexNote]
        exact hashesOf_upsert_self _ _ _
      · refine ih (acc.1 + 1, acc.2.1,
          indexNote env acc.2.2 g.1 ((parseFrontmatter env.yamlData g.2).1.getD {})
            (parseFrontmatter env.yamlData g.2).2 lg comm tc) hnd2 ?_ f hf2
        intro p hp hps
        have hpg : p.1 ≠ g.1 := by
          intro h
          exact hgn (h ▸ List.mem_map.mpr ⟨p, hp, rfl⟩)
        simp only [indexNote]
        rw [hashesOf_upsert_ne _ _ _ _ hpg]
        exact hpre p (List.mem_cons_of_mem _ hp) hps

theorem buildIndex_all_match (env : Env) (db : List (String × StoredVectors))
    (h : ∀ f ∈ env.notes, mapGet (hashesOf db) f.1 = some (noteHash env f)) :
    (buildIndex env db false).1.indexed = 0 ∧
    (buildIndex env db false).1.skipped = env.notes.length ∧
    (buildIndex env db false).2 = db := by
  have h2 : ∀ f ∈ env.notes,
      mapGet (db.map (fun e => (e.1, e.2.contentHash))) f.1 =
        some (noteHash env f) := h
  simp only [buildIndex]
  rw [indexFold_all_skip env (db.map (fun e => (e.1, e.2.contentHash))) _ _ _
    env.notes h2 (0, 0, db)]
  exact ⟨rfl, Nat.zero_add _, rfl⟩

theorem buildIndex_hashes (env : Env) (db : List (String × StoredVectors))
    (hnd : (env.notes.map Prod.fst).Nodup) :
    ∀ f ∈ env.notes,
      mapGet (hashesOf (buildIndex env db false).2) f.1 = some (noteHash env f) := by
  intro f hf
  simp only [buildIndex]
  exact indexFold_hashes env _ _ _ _ env.notes (0, 0, db) hnd
    (fun p _ hs => hs) f hf

theorem buildIndex_second_run (env : Env) (db : List (String × StoredVectors))
    (hnd : (env.notes.map Prod.fst).Nodup) :
    (buildIndex env (buildIndex env db false).2 false).1.indexed = 0 ∧
    (buildIndex env (buildIndex env db false).2 false).1.skipped =
      env.notes.length ∧
    (buildIndex env (buildIndex env db false).2 false).2 =
      (buildIndex env db false).2 :=
  buildIndex_all_match env _ (buildIndex_hashes env db hnd)

theorem buildIndex_mutation (env : Env) (l1 l2 : List (String × String))
    (t0 cOld cNew : String) (db : List (String × StoredVectors))
    (hnotes : env.notes = l1 ++ (t0, cOld) :: l2)
    (hnd : ((l1 ++ (t0, cOld) :: l2).map Prod.fst).Nodup)
    (hne : noteHash env (t0, cNew) ≠ noteHash env (t0, cOld)) :
    (buildIndex { env with notes := l1 ++ (t0, cNew) :: l2 }
        (buildIndex env db false).2 false).1.indexed = 1 ∧
    (buildIndex { env with notes := l1 ++ (t0, cNew) :: l2 }
        (buildIndex env db false).2 false).1.skipped = l1.length + l2.length := by
  have hall := buildIndex_hashes env db (by rw [hnotes]; exact hnd)
  rw [hnotes] at hall
  set run1 := (buildIndex env db false).2 with hrun1
  have hsk1 : ∀ f ∈ l1, mapGet (run1.map (fun e => (e.1, e.2.contentHash))) f.1 =
      some (noteHash { env with notes := l1 ++ (t0, cNew) :: l2 } f) :=
    fun f hf => hall f (List.mem_append.mpr (Or.inl hf))
  have hsk2 : ∀ f ∈ l2, mapGet (run1.map (fun e => (e.1, e.2.contentHash))) f.1 =
      some (noteHash { env with notes := l1 ++ (t0, cNew) :: l2 } f) :=
    fun f hf => hall f (List.mem_append.mpr (Or.inr (List.mem_cons_of_mem _ hf)))
  have hmid : mapGet (hashesOf run1) t0 = some (noteHash env (t0, cOld)) :=
    hall (t0, cOld) (List.mem_append.mpr (Or.inr (List.mem_cons_self _ _)))
  have hnot : mapGet (run1.map (fun e => (e.1, e.2.contentHash))) (t0, cNew).1 ≠
      some (noteHash { env with notes := l1 ++ (t0, cNew) :: l2 } (t0, cNew)) := by
    rw [show mapGet (run1.map (fun e => (e.1, e.2.contentHash))) (t0, cNew).1 =
      mapGet (hashesOf run1) t0 from rfl, hmid]
    intro h
    exact hne (Option.some_injective _ h.symm)
  simp only [buildIndex]
  rw [List.foldl_append,
    indexFold_all_skip { env with notes := l1 ++ (t0, cNew) :: l2 }
      (run1.map (fun e => (e.1, e.2.contentHash))) _ _ _ l1 hsk1 (0, 0, run1),
    List.foldl_cons,
    buildIndexStep_index _ _ _ _ _ _ (t0, cNew) hnot,
    indexFold_all_skip { env with notes := l1 ++ (t0, cNew) :: l2 }
      (run1.map (fun e => (e.1, e.2.contentHash))) _ _ _ l2 hsk2 _]
  exact ⟨rfl, by simp⟩

/-- C4: incremental index build. (1) When force is unset and every note's
stored content hash equals its current hash, a build skips every note,
indexes none, and leaves the rows unchanged. (2) Hence running buildIndex
twice in a row (distinct titles) gives skipped = total, indexed = 0 and
identical rows on the second run. (3) After changing one note's body so
that its content hash changes, a rebuild from the first run's rows
re-embeds exactly that note: indexed = 1 and skipped = total - 1. -/
theorem c4_incremental_index :
    (∀ (env : Env) (db : List (String × StoredVectors)),
      (∀ f ∈ env.notes, mapGet (hashesOf db) f.1 = some (noteHash env f)) →
      (buildIndex env db false).1.indexed = 0 ∧
      (buildIndex env db false).1.skipped = env.notes.length ∧
      (buildIndex env db false).2 = db) ∧
    (∀ (env : Env) (db : List (String × StoredVectors)),
      (env.notes.map Prod.fst).Nodup →
      (buildIndex env (buildIndex env db false).2 false).1.indexed = 0 ∧
      (buildIndex env (buildIndex env db false).2 false).1.skipped =
        env.notes.length ∧
      (buildIndex env (buildIndex env db false).2 false).2 =
        (buildIndex env db false).2) ∧
    (∀ (env : Env) (l1 l2 : List (String × String)) (t0 cOld cNew : String)
      (db : List (String × StoredVectors)),
      env.notes = l1 ++ (t0, cOld) :: l2 →
      ((l1 ++ (t0, cOld) :: l2).map Prod.fst).Nodup →
      noteHash env (t0, cNew) ≠ noteHash env (t0, cOld) →
      (buildIndex { env with notes := l1 ++ (t0, cNew) :: l2 }
          (buildIndex env db false).2 false).1.indexed = 1 ∧
      (buildIndex { env with notes := l1 ++ (t0, cNew) :: l2 }
          (buildIndex env db false).2 false).1.skipped =
        l1.length + l2.length) :=
  ⟨buildIndex_all_match, buildIndex_second_run, buildIndex_mutation⟩

/-- Witness for C4 on a concrete two-note corpus with the identity hash:
a second build skips both notes and changes nothing; after rewriting note
b's body, a rebuild indexes exactly one note and skips one. -/
theorem c4_witness :
    (({ baseEnv with notes := [("a", ""), ("b", "")] } : Env).notes.map
      Prod.fst).Nodup ∧
    ((buildIndex { baseEnv with notes := [("a", ""), ("b", "")] }
        (buildIndex { baseEnv with notes := [("a", ""), ("b", "")] } []
          false).2 false).1.indexed = 0 ∧
      (buildIndex { baseEnv with notes := [("a", ""), ("b", "")] }
        (buildIndex { baseEnv with notes := [("a", ""), ("b", "")] } []
          false).2 false).1.skipped = 2 ∧
      (buildIndex { baseEnv with notes := [("a", ""), ("b", "")] }
        (buildIndex { baseEnv with notes := [("a", ""), ("b", "")] } []
          false).2 false).2 =
        (buildIndex { baseEnv with notes := [("a", ""), ("b", "")] } []
          false).2) ∧
    ((buildIndex { baseEnv with notes := [("a", ""), ("b", "x")] }
        (buildIndex { baseEnv with notes := [("a", ""), ("b", "")] } []
          false).2 false).1.indexed = 1 ∧
      (buildIndex { baseEnv with notes := [("a", ""), ("b", "x")] }
        (buildIndex { baseEnv with notes := [("a", ""), ("b", "")] } []
          false).2 false).1.skipped = 1) :=
  ⟨by with_unfolding_all decide,
   c4_incremental_index.2.1 { baseEnv with notes := [("a", ""), ("b", "")] } []
     (by with_unfolding_all decide),
   c4_incremental_index.2.2 { baseEnv with notes := [("a", ""), ("b", "")] }
     [("a", "")] [] "b" "" "x" [] rfl (by with_unfolding_all decide)
     (by with_unfolding_all decide)⟩
